import Mathlib

/-!
Shallow embedding of the lithe-middleware pipeline engine (src/src/main.js).

Values flowing through the pipeline are modelled by an abstract type `V`;
errors thrown by middlewares and plugins by an abstract type `E`.  The
engine's `next` continuation (`async patch => { middleware = sequence.shift();
return patch }`) resolves with its argument and never rejects; a middleware's
observable behaviour through `middlewareFn(next)(input)` is therefore captured
by `MWBody`: transform the input and hand it to `next`, stop without calling
`next`, throw, or (for the synthetic middleware created by `connect`) call a
captured parent continuation.

Named middlewares are `[name, handler]` pair objects shared by reference
between the pipeline's base list and the request's derived list (the derived
list is `pipelineLevelList.slice(0)`, a shallow copy).  To model this aliasing
the pairs live in a store of numbered cells (`Store`), and a list entry is
either an inline anonymous middleware or a reference to a cell.  `replace`
mutates the cell in place, exactly as `result[index][1] = middleware` does.

`immer`'s `freeze(x, true)` freezes its argument in place and returns the same
reference, so freezing is invisible at the value level; the run result records
in `inputFrozen` whether the engine executed `let output = freezeUp(input)`
(main.js line 84), which is what the spec's "bypassing the freeze step" for
empty chains is about.
-/

namespace Lithe

/-- Lifecycle event type strings of main.js. -/
inductive EventType where
  | requestBegin
  | requestEnd
  | invocationBegin
  | invocationEnd
  deriving DecidableEq, Repr

/-- Status carried by end-type events. -/
inductive EvStatus where
  | success
  | failure
  deriving DecidableEq, Repr

/-- Errors surfaced by a request: a missing modification reference
(`could not find middleware named: "..."`), an error value thrown by a
middleware handler or a plugin callback, or the TypeError raised when a pair's
handler slot no longer holds a function. -/
inductive RunError (E : Type) where
  | notFound (ref : String)
  | raised (e : E)
  | invalidHandler
  deriving DecidableEq, Repr

/-- The message of the error constructed at main.js lines 240 and 254. -/
def RunError.message : RunError E → Option String
  | .notFound ref => some ("could not find middleware named: \"" ++ ref ++ "\"")
  | _ => none

/-- Observable behaviour of `middlewareFn(next)(input)` under this engine:
`thenNext f` is `next => async input => next(f(input))`; `thenNextCatch f`
additionally wraps its `next` call in try/catch (the catch rethrows);
`stop f` returns without calling `next`; `fail e` throws; `useCont tag f` is
the synthetic middleware `() => next` appended by `connect`, which ignores the
engine's own `next` and calls the captured parent continuation. -/
inductive MWBody (V E : Type) where
  | thenNext (f : V → V)
  | thenNextCatch (f : V → V)
  | stop (f : V → V)
  | fail (e : E)
  | useCont (tag : Nat) (f : V → V)

/-- A middleware entry of a (base or derived) list: a plain anonymous function,
or a reference to a `[name, handler]` pair cell in the store. -/
inductive Entry (V E : Type) where
  | anon (body : MWBody V E)
  | named (id : Nat)

/-- A `[name, handler]` pair object.  `slot` is `pair[1]`: originally a
function (an `anon` body); a `replace` modification overwrites it with the raw
middleware from the modification, which may itself be a pair reference. -/
structure PairCell (V E : Type) where
  pname : String
  slot : Entry V E

/-- The heap of pair objects, shared between the base list and derived lists. -/
abbrev Store (V E : Type) := List (Nat × PairCell V E)

def Store.findCell (store : Store V E) (id : Nat) : Option (PairCell V E) :=
  (store.find? (fun p => p.1 == id)).map Prod.snd

/-- In-place mutation `pair[1] = middleware` of the cell `id`. -/
def Store.setSlot (store : Store V E) (id : Nat) (m : Entry V E) : Store V E :=
  store.map (fun p => if p.1 == id then (p.1, PairCell.mk p.2.pname m) else p)

/-- The `nameOf` helper of main.js: a pair whose second element is a function
has its first element as name (`isNamed`); everything else — plain functions
included — has none.  A pair whose slot was replaced by another pair fails the
`isNamed` test (its second element is no longer a function). -/
def nameOfEntry (store : Store V E) : Entry V E → Option String
  | .anon _ => none
  | .named id =>
    match store.findCell id with
    | some cell =>
      match cell.slot with
      | .anon _ => some cell.pname
      | .named _ => none
    | none => none

/-- The action word of a 3-tuple modification.  (A 3-tuple with any other
action word would behave like `after` at application time while being skipped
by the graph switch; the published modification shapes use only these.) -/
inductive RelAction where
  | before
  | after
  | replace
  deriving DecidableEq, Repr

/-- A request-scoped modification: a bare middleware (appended), a relative
3-tuple `[middleware, action, ref]`, or a skip 2-tuple `["skip", ref]`. -/
inductive Modification (V E : Type) where
  | bare (m : Entry V E)
  | rel (m : Entry V E) (action : RelAction) (ref : String)
  | skip (ref : String)

/-- The `nameOf` of a modification: a relative tuple is named after its
middleware (`nameOf(item[0])`), a bare middleware after itself; a skip tuple
is neither `isNamed` nor 3 elements long, so it has no name. -/
def nameOfMod (store : Store V E) : Modification V E → Option String
  | .bare m => nameOfEntry store m
  | .rel m _ _ => nameOfEntry store m
  | .skip _ => none

/-- JavaScript object keys: an `undefined` name indexes the property
"undefined". -/
def keyOf : Option String → String
  | some s => s
  | none => "undefined"

/-- The dependency graph built by `modify`: a JS object mapping a referenced
name to the accumulated list of names that target it. -/
abbrev Graph := List (String × List String)

def Graph.get (g : Graph) (k : String) : Option (List String) :=
  (g.find? (fun p => p.1 == k)).map Prod.snd

def Graph.set (g : Graph) (k : String) (v : List String) : Graph :=
  if (g.find? (fun p => p.1 == k)).isSome then
    g.map (fun p => if p.1 == k then (k, v) else p)
  else
    g ++ [(k, v)]

/-- The switch at main.js lines 191-195 reads `modification[1]`: the action
word of a 3-tuple always matches; for a skip 2-tuple `modification[1]` is the
referenced name, which matches only when that name is literally one of the
four action words; for a bare middleware it is `undefined` or a function and
never matches. -/
def slotOneMatches : Modification V E → Bool
  | .rel _ _ _ => true
  | .skip ref => ref == "before" || ref == "after" || ref == "skip" || ref == "replace"
  | .bare _ => false

/-- The value of `modification[2]`: the ref of a 3-tuple, `undefined`
otherwise. -/
def refOf : Modification V E → Option String
  | .rel _ _ ref => some ref
  | _ => none

/-- One iteration of the graph-building loop (main.js lines 186-207):
`graph[ref] ??= []; graph[ref].push(name); graph[ref] =
graph[ref].concat(graph[name] ?? [])`.  The second read of `graph[name]`
happens after the push, which matters when `ref` and `name` coincide. -/
def buildGraphStep (store : Store V E) (g : Graph) (m : Modification V E) : Graph :=
  if slotOneMatches m then
    let refKey := keyOf (refOf m)
    let nameKey := keyOf (nameOfMod store m)
    let g1 := g.set refKey ((g.get refKey).getD [] ++ [nameKey])
    g1.set refKey ((g1.get refKey).getD [] ++ (g1.get nameKey).getD [])
  else g

def buildGraph (store : Store V E) (mods : List (Modification V E)) : Graph :=
  mods.foldl (buildGraphStep store) []

/-- The recursive weight (main.js lines 181-184): a referenced name weighs its
direct dependents plus their weights.  The JS recursion has no cycle guard and
overflows the stack on cyclic graphs; the fuel bounds the recursion depth and
`modify` passes one more than the number of keys, which reproduces the JS
value on every acyclic graph (a chain of distinct keys cannot be longer than
the key count, and a non-key weighs 0 at any fuel). -/
def weightOf (g : Graph) : Nat → String → Nat
  | 0, _ => 0
  | fuel + 1, x =>
    match g.get x with
    | none => 0
    | some refs => refs.foldl (fun sum ref => sum + weightOf g fuel ref) refs.length

/-- Insertion into a list sorted by `le`. -/
def sortInsert (le : α → α → Bool) (x : α) : List α → List α
  | [] => [x]
  | y :: ys => if le x y then x :: y :: ys else y :: sortInsert le x ys

/-- Insertion sort.  The JS `Array.prototype.sort` comparator below is a total
order on the enumerated modifications (positions are distinct), so any
comparison sort — the JS engine's and this one — produces the same, unique
sorted sequence. -/
def insortBy (le : α → α → Bool) : List α → List α
  | [] => []
  | x :: xs => sortInsert le x (insortBy le xs)

/-- The weight a modification sorts by. -/
def modWeight (store : Store V E) (g : Graph) (fuel : Nat) (m : Modification V E) : Nat :=
  weightOf g fuel (keyOf (nameOfMod store m))

/-- The comparator of main.js lines 215-225 as a boolean order on
position-tagged modifications: `return y - x` sorts by descending weight, and
on equal weights by descending original position (`y - x` is
`bPos - aPos` there, so the later-declared modification is applied first; the
repository's own `1ab2c34d` test pins this down). -/
def modLe (store : Store V E) (g : Graph) (fuel : Nat)
    (a b : Nat × Modification V E) : Bool :=
  let wa := modWeight store g fuel a.2
  let wb := modWeight store g fuel b.2
  wb < wa || (wa == wb && b.1 ≤ a.1)

/-- Graph building, weighing and sorting of `modify` (main.js lines 177-225),
before any splicing.  Positions tag the modifications as `indexOf` does for
pairwise-distinct list elements. -/
def sortMods (store : Store V E) (mods : List (Modification V E)) :
    List (Modification V E) :=
  let g := buildGraph store mods
  let fuel := g.length + 1
  (insortBy (modLe store g fuel) mods.enum).map Prod.snd

/-- The splice `result.splice(initialLength, 0, x)`: JS clamps an index past
the end to the end. -/
def spliceIn (i : Nat) (x : α) (l : List α) : List α :=
  l.insertIdx (min i l.length) x

/-- The lookup predicate `existing => nameOf(existing) === ref`. -/
def matchesRef (store : Store V E) (ref : String) (ex : Entry V E) : Bool :=
  nameOfEntry store ex == some ref

/-- The application loop of `modify` (main.js lines 231-259) over the already
sorted modifications, threading the pair store: `replace` mutates the found
pair cell in place (`result[index][1] = middleware`), `before`/`after` splice,
a skip removes, a bare middleware is spliced at the original base length.
A missing reference throws; mutations made before the throw persist. -/
def applyMods (initLen : Nat) :
    Store V E → List (Entry V E) → List (Modification V E) →
    Store V E × Except (RunError E) (List (Entry V E))
  | store, result, [] => (store, .ok result)
  | store, result, m :: rest =>
    match m with
    | .bare e => applyMods initLen store (spliceIn initLen e result) rest
    | .rel mid act ref =>
      match result.findIdx? (matchesRef store ref) with
      | none => (store, .error (.notFound ref))
      | some i =>
        match act with
        | .replace =>
          match result[i]? with
          | some (.named id) => applyMods initLen (store.setSlot id mid) result rest
          | _ =>
            -- unreachable: only a named pair can match a string ref; on a plain
            -- function JS would set an inert numeric property
            applyMods initLen store result rest
        | .before => applyMods initLen store (result.insertIdx i mid) rest
        | .after => applyMods initLen store (result.insertIdx (i + 1) mid) rest
    | .skip ref =>
      match result.findIdx? (matchesRef store ref) with
      | none => (store, .error (.notFound ref))
      | some i => applyMods initLen store (result.eraseIdx i) rest

/-- The modification resolver `modify(pipelineLevelList, requestLevelList)`:
the derived list starts as a shallow copy of the base list (sharing pair
cells), and the sorted modifications are applied in turn. -/
def modify (store : Store V E) (base : List (Entry V E))
    (mods : List (Modification V E)) :
    Store V E × Except (RunError E) (List (Entry V E)) :=
  applyMods base.length store base (sortMods store mods)

/-- A lifecycle event object.  Fields absent from a given JS event object are
`none`; an `undefined` name on an invocation event is also `none` (a plugin
observes `undefined` either way).  `etype` is the JS `type` field. -/
structure Event (V E : Type) where
  etype : EventType
  iid : Option Nat := none
  input : V
  name : Option String := none
  output : Option V := none
  error : Option (RunError E) := none
  pipelineName : String
  prid : Option Nat
  rid : Nat
  status : Option EvStatus := none
  deriving DecidableEq, Repr

/-- The event object constructed at main.js lines 26-34. -/
def invBeginEv (iid : Nat) (input : V) (name : Option String) (pn : String)
    (prid : Option Nat) (rid : Nat) : Event V E :=
  { etype := .invocationBegin, iid := some iid, input := input, name := name,
    pipelineName := pn, prid := prid, rid := rid }

/-- The event object constructed at main.js lines 44-54. -/
def invEndSuccEv (iid : Nat) (input : V) (name : Option String) (out : V)
    (pn : String) (prid : Option Nat) (rid : Nat) : Event V E :=
  { etype := .invocationEnd, iid := some iid, input := input, name := name,
    output := some out, pipelineName := pn, prid := prid, rid := rid,
    status := some .success }

/-- The event object constructed at main.js lines 59-69. -/
def invEndFailEv (iid : Nat) (input : V) (name : Option String)
    (err : RunError E) (pn : String) (prid : Option Nat) (rid : Nat) : Event V E :=
  { etype := .invocationEnd, iid := some iid, input := input, name := name,
    error := some err, pipelineName := pn, prid := prid, rid := rid,
    status := some .failure }

/-- The event object constructed at main.js lines 76-82. -/
def reqBeginEv (input : V) (pn : String) (prid : Option Nat) (rid : Nat) :
    Event V E :=
  { etype := .requestBegin, input := input, pipelineName := pn, prid := prid,
    rid := rid }

/-- The event object constructed at main.js lines 128-136. -/
def reqEndSuccEv (input : V) (out : V) (pn : String) (prid : Option Nat)
    (rid : Nat) : Event V E :=
  { etype := .requestEnd, input := input, output := some out,
    pipelineName := pn, prid := prid, rid := rid, status := some .success }

/-- The event object constructed at main.js lines 118-126. -/
def reqEndFailEv (input : V) (err : RunError E) (pn : String)
    (prid : Option Nat) (rid : Nat) : Event V E :=
  { etype := .requestEnd, input := input, error := some err,
    pipelineName := pn, prid := prid, rid := rid, status := some .failure }

/-- The spread `{ ...event, output }` of main.js line 291. -/
def Event.withOutput (ev : Event V E) (out : Option V) : Event V E :=
  { ev with output := out }

/-- An observer plugin: `intercept` may return a replacement value
(`some v`), return nothing (`none`), or throw (`Except.error`). -/
structure Plugin (V E : Type) where
  intercept : Event V E → Except E (Option V)

/-- The guard `!event.name`: `undefined` and the empty string are falsy. -/
def falsyName : Option String → Bool
  | none => true
  | some s => s == ""

/-- Sequential delivery of a frozen event: the first plugin that throws stops
the loop and its error propagates. -/
def fireAll (plugins : List (Plugin V E)) (ev : Event V E) : Except E Unit :=
  match plugins with
  | [] => .ok ()
  | p :: rest =>
    match p.intercept ev with
    | .error e => .error e
    | .ok _ => fireAll rest ev

/-- The `notifyWithoutOutput` of main.js lines 264-278: invocation events with
a falsy name are suppressed before anything is frozen or delivered; other
events are emitted (first component) and delivered to every plugin in
registration order. -/
def notifyWithoutOutput (plugins : List (Plugin V E)) (ev : Event V E) :
    List (Event V E) × Except E Unit :=
  if (ev.etype == .invocationBegin || ev.etype == .invocationEnd)
      && falsyName ev.name then
    ([], .ok ())
  else
    ([ev], fireAll plugins ev)

/-- The plugin loop of `notifyWithOutput`: each plugin receives a fresh frozen
event carrying the current output; a returned value replaces the output seen
by the following plugins (`output = (await plugin.intercept?.(...)) ?? output`),
a plugin returning nothing leaves it unchanged, and a throw propagates. -/
def replaceFold (ev : Event V E) :
    List (Plugin V E) → Option V → Except E (Option V)
  | [], out => .ok out
  | p :: rest, out =>
    match p.intercept (ev.withOutput out) with
    | .error e => .error e
    | .ok r =>
      replaceFold ev rest (match r with | some v => some v | none => out)

/-- The `notifyWithOutput` of main.js lines 280-302: an invocation-end event
with a falsy name is suppressed and the function returns `undefined` (`none`),
so the caller falls back to its own output via `?? output`. -/
def notifyWithOutput (plugins : List (Plugin V E)) (ev : Event V E) :
    List (Event V E) × Except E (Option V) :=
  if ev.etype == .invocationEnd && falsyName ev.name then
    ([], .ok none)
  else
    ([ev], replaceFold ev plugins ev.output)

/-- The handler function behind an entry: `typeof current === 'function' ?
current : current[1]`.  `none` models `current[1]` not being callable (a
TypeError when invoked), which happens only after a pathological `replace`. -/
def bodyOfEntry (store : Store V E) : Entry V E → Option (MWBody V E)
  | .anon b => some b
  | .named id =>
    match store.findCell id with
    | some cell =>
      match cell.slot with
      | .anon b => some b
      | .named _ => none
    | none => none

/-- Runs a middleware body against a `next` continuation.  Returns whether
`next` was called, the handler's result, and whether the middleware's own
catch block around its `next` call ran (possible only if `next` rejects). -/
def execBody (next : V → Except E V) (input : V) :
    MWBody V E → Bool × Except E V × Bool
  | .thenNext f =>
    match next (f input) with
    | .ok v => (true, .ok v, false)
    | .error e => (true, .error e, false)
  | .thenNextCatch f =>
    match next (f input) with
    | .ok v => (true, .ok v, false)
    | .error e => (true, .error e, true)
  | .stop f => (false, .ok (f input), false)
  | .fail e => (false, .error e, false)
  | .useCont _ f => (false, .ok (f input), false)

/-- The engine's `next`: `async patch => { middleware = sequence.shift();
return patch }`.  It resolves with its argument and never rejects; the cursor
advance is handled by `runChain` below. -/
def engineNext : V → Except E V := fun patch => .ok patch

/-- Instrumentation collected while running: the events emitted (frozen and
offered to the plugin loop), the iids whose middleware handler ran, and the
iids whose own catch block around `next` ran. -/
structure Trace (V E : Type) where
  events : List (Event V E)
  executed : List Nat
  catches : List Nat
  deriving DecidableEq, Repr

def Trace.append (t u : Trace V E) : Trace V E :=
  Trace.mk (t.events ++ u.events) (t.executed ++ u.executed) (t.catches ++ u.catches)

/-- The catch block of `invoke` (main.js lines 58-72): notify invocation-end
failure and rethrow the caught error — unless that very notification rejects,
in which case its error propagates instead. -/
def invokeCatch (plugins : List (Plugin V E)) (iid : Nat) (input : V)
    (name : Option String) (pn : String) (prid : Option Nat) (rid : Nat)
    (evsSoFar : List (Event V E)) (executed catches : List Nat)
    (err : RunError E) : Trace V E × Except (RunError E) (V × Bool) :=
  let n := notifyWithoutOutput plugins (invEndFailEv iid input name err pn prid rid)
  (Trace.mk (evsSoFar ++ n.1) executed catches,
    match n.2 with
    | .error e2 => .error (.raised e2)
    | .ok _ => .error err)

/-- The `invoke` of main.js lines 18-73 for one middleware: emit
invocation-begin, run the handler, emit invocation-end (success, through the
output-replacing plugin loop, falling back via `?? output`) and return the
output together with whether `next` was called.  Any throw inside the try —
a plugin rejecting at either notification, a TypeError from a non-callable
handler, or the handler itself — lands in the catch (`invokeCatch`). -/
def invoke (plugins : List (Plugin V E)) (store : Store V E)
    (pn : String) (prid : Option Nat) (rid : Nat) (iid : Nat)
    (entry : Entry V E) (input : V) :
    Trace V E × Except (RunError E) (V × Bool) :=
  let name := nameOfEntry store entry
  let nb := notifyWithoutOutput plugins (invBeginEv iid input name pn prid rid)
  match nb.2 with
  | .error e => invokeCatch plugins iid input name pn prid rid nb.1 [] [] (.raised e)
  | .ok _ =>
    match bodyOfEntry store entry with
    | none => invokeCatch plugins iid input name pn prid rid nb.1 [] [] .invalidHandler
    | some b =>
      let ex := execBody engineNext input b
      let catches := if ex.2.2 then [iid] else []
      match ex.2.1 with
      | .error e => invokeCatch plugins iid input name pn prid rid nb.1 [iid] catches (.raised e)
      | .ok out =>
        let ne := notifyWithOutput plugins (invEndSuccEv iid input name out pn prid rid)
        match ne.2 with
        | .error e =>
          invokeCatch plugins iid input name pn prid rid (nb.1 ++ ne.1) [iid] catches (.raised e)
        | .ok rOpt => (Trace.mk (nb.1 ++ ne.1) [iid] catches, .ok (rOpt.getD out, ex.1))

/-- The while loop of main.js lines 93-109: invoke the current middleware; if
it called `next`, the cursor has advanced to the head of the remaining
sequence (or the loop ends when none remains); if it did not, the loop ends
and its output is the chain's output.  Errors propagate to the loop directly,
never back through an earlier middleware's frame. -/
def runChain (plugins : List (Plugin V E)) (store : Store V E)
    (pn : String) (prid : Option Nat) (rid : Nat) :
    Nat → Entry V E → List (Entry V E) → V → Trace V E × Except (RunError E) V
  | c, cur, seq, input =>
    let iv := invoke plugins store pn prid rid c cur input
    match iv.2 with
    | .error e => (iv.1, .error e)
    | .ok vb =>
      if vb.2 then
        match seq with
        | [] => (iv.1, .ok vb.1)
        | nxt :: rest =>
          let rc := runChain plugins store pn prid rid (c + 1) nxt rest vb.1
          (iv.1.append rc.1, rc.2)
      else (iv.1, .ok vb.1)

/-- A pipeline configuration: name, plugins, parent correlation id (the
`ridKey` tag read off `options.parent`), base middleware list and the shared
pair store. -/
structure Config (V E : Type) where
  pipelineName : String
  plugins : List (Plugin V E)
  parentTag : Option Nat
  middlewares : List (Entry V E)
  store : Store V E

/-- Everything observable about one request: the settled promise, the emitted
events, which handlers ran, which catch-around-next blocks ran, whether the
engine froze the input (main.js line 84), and the final pair store. -/
structure RunResult (V E : Type) where
  result : Except (RunError E) V
  events : List (Event V E)
  executed : List Nat
  catches : List Nat
  inputFrozen : Bool
  store : Store V E

/-- The request handler of main.js lines 75-139.  `c` seeds the uuid counter:
`rid = c`, middleware iids follow.  Order of operations is the source's:
request-begin is notified before the try (so a rejection there skips the
finally), the input is frozen (line 84) before `modify` runs and before the
empty-sequence check, and the finally emits request-end — success events going
through the output-replacing plugin loop whose replacement is discarded. -/
def handleRequest (cfg : Config V E) (mods : List (Modification V E)) (c : Nat)
    (input : V) : RunResult V E :=
  let rid := c
  let prid := cfg.parentTag
  let pn := cfg.pipelineName
  let nb := notifyWithoutOutput cfg.plugins (reqBeginEv input pn prid rid)
  match nb.2 with
  | .error e => RunResult.mk (.error (.raised e)) nb.1 [] [] false cfg.store
  | .ok _ =>
    let m := modify cfg.store cfg.middlewares mods
    match m.2 with
    | .error err =>
      let nf := notifyWithoutOutput cfg.plugins (reqEndFailEv input err pn prid rid)
      RunResult.mk
        (match nf.2 with
          | .error e2 => .error (.raised e2)
          | .ok _ => .error err)
        (nb.1 ++ nf.1) [] [] true m.1
    | .ok seq =>
      match seq with
      | [] =>
        let ns := notifyWithOutput cfg.plugins (reqEndSuccEv input input pn prid rid)
        RunResult.mk
          (match ns.2 with
            | .error e2 => .error (.raised e2)
            | .ok _ => .ok input)
          (nb.1 ++ ns.1) [] [] true m.1
      | first :: rest =>
        let rc := runChain cfg.plugins m.1 pn prid rid (c + 1) first rest input
        match rc.2 with
        | .ok out =>
          let ns := notifyWithOutput cfg.plugins (reqEndSuccEv input out pn prid rid)
          RunResult.mk
            (match ns.2 with
              | .error e2 => .error (.raised e2)
              | .ok _ => .ok out)
            (nb.1 ++ rc.1.events ++ ns.1) rc.1.executed rc.1.catches true m.1
        | .error err =>
          let nf := notifyWithoutOutput cfg.plugins (reqEndFailEv input err pn prid rid)
          RunResult.mk
            (match nf.2 with
              | .error e2 => .error (.raised e2)
              | .ok _ => .error err)
            (nb.1 ++ rc.1.events ++ nf.1) rc.1.executed rc.1.catches true m.1

/-- A `next`-style continuation value as passed to `connect`: the `ridKey` tag
stashed on the function, and the value behaviour of calling it (the engine's
own `next` resolves with its argument). -/
structure Continuation (V : Type) where
  tag : Nat
  fn : V → V

/-- The `pipeline.connect` of main.js lines 142-146: a new pipeline built from
the same options with `parent := next` — so its `prid` is the tag on the
continuation — and the base list extended with the synthetic middleware
`() => next`. -/
def connect (cfg : Config V E) (cont : Continuation V) : Config V E :=
  Config.mk cfg.pipelineName cfg.plugins (some cont.tag)
    (cfg.middlewares ++ [.anon (.useCont cont.tag cont.fn)]) cfg.store

end Lithe

namespace Lithe

/-! Helper lemmas about the engine. -/

/-- Plugins none of which ever throws. -/
def NoThrow (plugins : List (Plugin V E)) : Prop :=
  ∀ p ∈ plugins, ∀ ev, ∃ r, p.intercept ev = .ok r

theorem noThrow_nil : NoThrow ([] : List (Plugin V E)) := by
  intro p hp
  cases hp

theorem fireAll_ok (plugins : List (Plugin V E)) (ev : Event V E)
    (h : NoThrow plugins) : fireAll plugins ev = .ok () := by
  induction plugins with
  | nil => rfl
  | cons p rest ih =>
    obtain ⟨r, hr⟩ := h p (List.mem_cons_self p rest) ev
    have : NoThrow rest := fun q hq => h q (List.mem_cons_of_mem p hq)
    simp [fireAll, hr, ih this]

theorem replaceFold_ok (plugins : List (Plugin V E)) (ev : Event V E) :
    ∀ (out : Option V), NoThrow plugins →
    ∃ o, replaceFold ev plugins out = .ok o := by
  induction plugins with
  | nil => exact fun out _ => ⟨out, rfl⟩
  | cons p rest ih =>
    intro out h
    obtain ⟨r, hr⟩ := h p (List.mem_cons_self p rest) (ev.withOutput out)
    have hrest : NoThrow rest := fun q hq => h q (List.mem_cons_of_mem p hq)
    cases r with
    | none =>
      obtain ⟨o, ho⟩ := ih out hrest
      exact ⟨o, by simp only [replaceFold, hr]; exact ho⟩
    | some v =>
      obtain ⟨o, ho⟩ := ih (some v) hrest
      exact ⟨o, by simp only [replaceFold, hr]; exact ho⟩

theorem execBody_no_catch (b : MWBody V E) (x : V) :
    (execBody engineNext x b).2.2 = false := by
  cases b <;> rfl

/-- With no plugins, invoking an anonymous pass-through middleware is silent
(invocation events are suppressed), runs the handler and threads `f input`. -/
theorem invoke_nil_anon_thenNext (st : Store V E) (pn : String) (prid : Option Nat)
    (rid iid : Nat) (f : V → V) (x : V) :
    invoke ([] : List (Plugin V E)) st pn prid rid iid (.anon (.thenNext f)) x
      = (Trace.mk [] [iid] [], .ok (f x, true)) := by
  rfl

theorem invokeCatch_parts (pl : List (Plugin V E)) (iid : Nat) (input : V)
    (name : Option String) (pn : String) (prid : Option Nat) (rid : Nat)
    (evs : List (Event V E)) (ex cs : List Nat) (err : RunError E) :
    (invokeCatch pl iid input name pn prid rid evs ex cs err).1.catches = cs ∧
    (invokeCatch pl iid input name pn prid rid evs ex cs err).1.executed = ex ∧
    (invokeCatch pl iid input name pn prid rid evs ex cs err).2.isOk = false := by
  unfold invokeCatch
  refine ⟨rfl, rfl, ?_⟩
  cases h : (notifyWithoutOutput pl (invEndFailEv iid input name err pn prid rid)).2 <;>
    simp [h, Except.isOk, Except.toBool]

theorem invoke_catches_nil (pl : List (Plugin V E)) (st : Store V E) (pn : String)
    (prid : Option Nat) (rid iid : Nat) (entry : Entry V E) (x : V) :
    (invoke pl st pn prid rid iid entry x).1.catches = [] := by
  unfold invoke
  dsimp only
  have hc := fun evs ex cs err =>
    (invokeCatch_parts pl iid x (nameOfEntry st entry) pn prid rid evs ex cs err).1
  cases (notifyWithoutOutput pl (invBeginEv iid x (nameOfEntry st entry) pn prid rid)).2 with
  | error e => exact hc _ _ _ _
  | ok u =>
    cases bodyOfEntry st entry with
    | none => exact hc _ _ _ _
    | some b =>
      simp only
      rw [execBody_no_catch]
      simp only [Bool.false_eq_true, if_false]
      cases (execBody engineNext x b).2.1 with
      | error e => dsimp only; exact hc _ _ _ _
      | ok out =>
        dsimp only
        cases (notifyWithOutput pl (invEndSuccEv iid x (nameOfEntry st entry) out pn prid rid)).2 with
        | error e => dsimp only; exact hc _ _ _ _
        | ok r => rfl

theorem runChain_catches_nil (pl : List (Plugin V E)) (st : Store V E) (pn : String)
    (prid : Option Nat) (rid : Nat) (c : Nat) (cur : Entry V E)
    (seq : List (Entry V E)) (x : V) :
    (runChain pl st pn prid rid c cur seq x).1.catches = [] := by
  induction seq generalizing c cur x with
  | nil =>
    unfold runChain
    dsimp only
    have hi := invoke_catches_nil pl st pn prid rid c cur x
    cases (invoke pl st pn prid rid c cur x).2 with
    | error e => exact hi
    | ok vb =>
      cases h2 : vb.2 <;> simp [h2, hi]
  | cons nxt rest ih =>
    unfold runChain
    dsimp only
    have hi := invoke_catches_nil pl st pn prid rid c cur x
    cases (invoke pl st pn prid rid c cur x).2 with
    | error e => exact hi
    | ok vb =>
      cases h2 : vb.2 with
      | false => simp [h2, hi]
      | true =>
        have htr2 := ih (c + 1) nxt vb.1
        simp [h2, Trace.append, hi, htr2]

end Lithe

namespace Lithe

theorem modify_nil (st : Store V E) (base : List (Entry V E)) :
    modify st base [] = (st, .ok base) := rfl

/-- Running a chain of anonymous pass-through middlewares with no plugins
threads each output into the next input and executes them in order, with
consecutive invocation ids. -/
theorem runChain_nil_anon_transforms (st : Store V E) (pn : String)
    (prid : Option Nat) (rid : Nat) :
    ∀ (fs : List (V → V)) (f : V → V) (c : Nat) (x : V),
    runChain ([] : List (Plugin V E)) st pn prid rid c (.anon (.thenNext f))
        (fs.map (fun g => Entry.anon (.thenNext g))) x
      = (Trace.mk [] (List.range' c (fs.length + 1)) [],
         .ok (fs.foldl (fun a g => g a) (f x))) := by
  intro fs
  induction fs with
  | nil =>
    intro f c x
    unfold runChain
    rw [invoke_nil_anon_thenNext]
    simp [List.range']
  | cons g gs ih =>
    intro f c x
    unfold runChain
    rw [invoke_nil_anon_thenNext]
    dsimp only [List.map_cons]
    rw [ih g (c + 1) (f x)]
    simp [Trace.append, List.range']

/-- C1: for every non-empty base middleware list of pass-through transforms
and every input, the request handler (no modifications, no plugins) executes
the middlewares strictly in list order — consecutive invocation ids in list
order — threading each middleware's output as the next middleware's input, so
the final output is the left-to-right composition of the transforms applied to
the input. -/
theorem chain_executes_in_order_and_composes
    (fs : List (V → V)) (hne : fs ≠ []) (pname : String) (prid : Option Nat)
    (st : Store V E) (c : Nat) (x : V) :
    (handleRequest (Config.mk pname [] prid
        (fs.map (fun f => Entry.anon (.thenNext f))) st) [] c x).result
      = .ok (fs.foldl (fun a f => f a) x) ∧
    (handleRequest (Config.mk pname [] prid
        (fs.map (fun f => Entry.anon (.thenNext f))) st) [] c x).executed
      = List.range' (c + 1) fs.length := by
  obtain ⟨f, fs', rfl⟩ := List.exists_cons_of_ne_nil hne
  unfold handleRequest
  dsimp only
  rw [modify_nil]
  dsimp only [List.map_cons]
  rw [runChain_nil_anon_transforms]
  exact ⟨rfl, rfl⟩

/-- Witness for C1 at a concrete chain. -/
theorem chain_executes_in_order_and_composes_witness :
    ([fun n => n + 1, fun n => n * 2] : List (Nat → Nat)) ≠ [] ∧
    (handleRequest (Config.mk "p" [] none
        (([fun n => n + 1, fun n => n * 2] : List (Nat → Nat)).map
          (fun f => Entry.anon (MWBody.thenNext (E := Nat) f))) []) [] 0 3).result
      = .ok 8 :=
  ⟨by simp, by
    have h := (chain_executes_in_order_and_composes
      ([fun n => n + 1, fun n => n * 2] : List (Nat → Nat)) (by simp) "p" none
      ([] : Store Nat Nat) 0 3).1
    simpa using h⟩

/-- C4: no middleware's own catch block around its `next` call ever runs — in
any run whatsoever — and when a later middleware throws after an earlier
middleware (even one wrapping `next` in try/catch) has called `next`, the
error propagates directly to the request handler's caller. -/
theorem errors_never_backpropagate
    (cfg : Config V E) (mods : List (Modification V E)) (c : Nat) (input : V) :
    (handleRequest cfg mods c input).catches = [] ∧
    (∀ (f : V → V) (e : E) (pn : String) (prid : Option Nat) (st : Store V E)
        (c' : Nat) (x : V),
      (handleRequest (Config.mk pn [] prid
          [.anon (.thenNextCatch f), .anon (.fail e)] st) [] c' x).result
        = .error (.raised e) ∧
      (handleRequest (Config.mk pn [] prid
          [.anon (.thenNextCatch f), .anon (.fail e)] st) [] c' x).catches
        = []) := by
  constructor
  · unfold handleRequest
    dsimp only
    cases (notifyWithoutOutput cfg.plugins
        (reqBeginEv input cfg.pipelineName cfg.parentTag c)).2 with
    | error e => rfl
    | ok u =>
      dsimp only
      cases (modify cfg.store cfg.middlewares mods).2 with
      | error err => rfl
      | ok seq =>
        dsimp only
        cases seq with
        | nil => rfl
        | cons first rest =>
          dsimp only
          cases hrc : (runChain cfg.plugins (modify cfg.store cfg.middlewares mods).1
              cfg.pipelineName cfg.parentTag c (c + 1) first rest input).2 with
          | ok out =>
            dsimp only
            have := runChain_catches_nil cfg.plugins
              (modify cfg.store cfg.middlewares mods).1 cfg.pipelineName
              cfg.parentTag c (c + 1) first rest input
            exact this
          | error err =>
            dsimp only
            have := runChain_catches_nil cfg.plugins
              (modify cfg.store cfg.middlewares mods).1 cfg.pipelineName
              cfg.parentTag c (c + 1) first rest input
            exact this
  · intro f e pn prid st c' x
    exact ⟨rfl, rfl⟩

end Lithe

namespace Lithe

/-- C5 (amended): with an empty resolved middleware list the request handler
emits request-begin then request-end (status success, output equal to the
original input) and returns the original input itself — but the freeze step is
NOT bypassed: `let output = freezeUp(input)` (main.js line 84) has already
deep-frozen the input in place before the empty check, so the returned
reference is the frozen original. -/
theorem empty_chain_returns_frozen_input (pname : String) (prid : Option Nat)
    (st : Store V E) (ms : List (Entry V E)) (mods : List (Modification V E))
    (c : Nat) (x : V)
    (h : (modify st ms mods).2 = .ok []) :
    (handleRequest (Config.mk pname [] prid ms st) mods c x).result = .ok x ∧
    (handleRequest (Config.mk pname [] prid ms st) mods c x).events
      = [reqBeginEv x pname prid c, reqEndSuccEv x x pname prid c] ∧
    (handleRequest (Config.mk pname [] prid ms st) mods c x).inputFrozen = true := by
  unfold handleRequest
  dsimp only
  rw [h]
  exact ⟨rfl, rfl, rfl⟩

/-- Witness for the amended C5. -/
theorem empty_chain_returns_frozen_input_witness :
    (modify ([] : Store Nat Nat) ([] : List (Entry Nat Nat)) []).2 = .ok [] ∧
    (handleRequest (Config.mk "p" [] none ([] : List (Entry Nat Nat))
        ([] : Store Nat Nat)) [] 0 7).result = .ok 7 :=
  ⟨rfl, (empty_chain_returns_frozen_input "p" none [] [] [] 0 7 rfl).1⟩

/-- C5 counterexample: on a concrete empty pipeline the claimed "bypassing the
freeze step" is false — the engine executes the freeze of the input (main.js
line 84, before the empty-sequence check), so the returned original reference
is a frozen one. -/
theorem empty_chain_freeze_not_bypassed :
    (handleRequest (Config.mk "p" [] none ([] : List (Entry Nat Nat))
        ([] : Store Nat Nat)) [] 0 7).inputFrozen = true := rfl

/-- C6: when resolution fails because a modification references a name missing
from the working list, the request handler (under plugins that do not
themselves throw) rejects with exactly that error — whose message is
`could not find middleware named: "<name>"` — and no middleware handler runs. -/
theorem missing_reference_rejects (pname : String) (plugins : List (Plugin V E))
    (prid : Option Nat) (st : Store V E) (ms : List (Entry V E))
    (mods : List (Modification V E)) (c : Nat) (x : V) (n : String)
    (hpl : NoThrow plugins)
    (h : (modify st ms mods).2 = .error (.notFound n)) :
    (handleRequest (Config.mk pname plugins prid ms st) mods c x).result
      = .error (.notFound n) ∧
    (handleRequest (Config.mk pname plugins prid ms st) mods c x).executed = [] ∧
    (RunError.notFound n : RunError E).message
      = some ("could not find middleware named: \"" ++ n ++ "\"") := by
  have hnb : (notifyWithoutOutput plugins (reqBeginEv x pname prid c : Event V E)).2
      = .ok () := by
    simp [notifyWithoutOutput, reqBeginEv, fireAll_ok _ _ hpl]
  have hnf : (notifyWithoutOutput plugins
      (reqEndFailEv x (.notFound n) pname prid c : Event V E)).2 = .ok () := by
    simp [notifyWithoutOutput, reqEndFailEv, fireAll_ok _ _ hpl]
  unfold handleRequest
  dsimp only
  rw [hnb]
  dsimp only
  rw [h]
  dsimp only
  rw [hnf]
  exact ⟨rfl, rfl, rfl⟩

/-- Witness for C6: a `before` modification referencing the unregistered name
`foo bar`. -/
theorem missing_reference_rejects_witness :
    (modify ([] : Store Nat Nat) [.anon (.thenNext (fun n => n + 1))]
        [.rel (.anon (.thenNext (fun n => n + 2))) .before "foo bar"]).2
      = .error (.notFound "foo bar") ∧
    (handleRequest (Config.mk "p" [] none [.anon (.thenNext (fun n => n + 1))]
        ([] : Store Nat Nat))
        [.rel (.anon (.thenNext (fun n => n + 2))) .before "foo bar"] 0 3).result
      = .error (.notFound "foo bar") :=
  ⟨rfl, (missing_reference_rejects "p" [] none []
    ([.anon (.thenNext (fun n => n + 1))] : List (Entry Nat Nat))
    ([.rel (.anon (.thenNext (fun n => n + 2))) .before "foo bar"] :
      List (Modification Nat Nat))
    0 3 "foo bar" noThrow_nil rfl).1⟩

def c2Store : Store Nat Nat :=
  [(0, PairCell.mk "foo" (.anon (.thenNext (fun n => n + 1))))]

/-- C2: a `replace` modification mutates the pair cell shared with the base
list.  A fresh pipeline over base `[["foo", n+1]]` maps 3 to 4; after one
request carrying `[[n*2, "replace", "foo"]]` (output 6), a subsequent plain
request with NO modifications on the same pipeline outputs 6 as well — the
base list's `foo` pair now holds the replacement handler, contradicting the
invariant that the base list's entries are unchanged across calls. -/
theorem replace_mutates_base_list :
    (handleRequest (Config.mk "p" [] none [.named 0] c2Store) [] 0 3).result
      = .ok 4 ∧
    (handleRequest (Config.mk "p" [] none [.named 0] c2Store)
        [.rel (.anon (.thenNext (fun n => n * 2))) .replace "foo"] 0 3).result
      = .ok 6 ∧
    (handleRequest (Config.mk "p" [] none [.named 0]
        (handleRequest (Config.mk "p" [] none [.named 0] c2Store)
            [.rel (.anon (.thenNext (fun n => n * 2))) .replace "foo"] 0 3).store)
        [] 1 3).result
      = .ok 6 ∧
    ((handleRequest (Config.mk "p" [] none [.named 0] c2Store)
        [.rel (.anon (.thenNext (fun n => n * 2))) .replace "foo"] 0 3).store.findCell
          0).map PairCell.pname
      = some "foo" :=
  ⟨rfl, rfl, rfl, rfl⟩

end Lithe

namespace Lithe

/-- A plugin that throws `e` at every invocation-begin notification and
returns nothing otherwise. -/
def throwOnInvBegin (e : E) : Plugin V E :=
  Plugin.mk (fun ev => if ev.etype == .invocationBegin then .error e else .ok none)

/-- A plugin that throws `e` at every notification. -/
def throwAlways (e : E) : Plugin V E :=
  Plugin.mk (fun _ => .error e)

/-- C10: a plugin error during a lifecycle notification is not swallowed.
With a plugin that throws at invocation-begin, the first (named) middleware's
handler never runs, the request aborts, the events are exactly request-begin,
invocation-begin, invocation-end(failure) and request-end(failure), and the
request handler rejects with the plugin's error.  With a plugin that throws at
every event, the request rejects already at request-begin and nothing else is
emitted or executed. -/
theorem plugin_throw_aborts_request (e : E) (pname : String) (prid : Option Nat)
    (nm : String) (b : MWBody V E) (rest : List (Entry V E)) (c : Nat) (x : V)
    (hnm : nm ≠ "") :
    (handleRequest (Config.mk pname [throwOnInvBegin e] prid
        (.named 0 :: rest) [(0, PairCell.mk nm (.anon b))]) [] c x).result
      = .error (.raised e) ∧
    (handleRequest (Config.mk pname [throwOnInvBegin e] prid
        (.named 0 :: rest) [(0, PairCell.mk nm (.anon b))]) [] c x).executed
      = [] ∧
    (handleRequest (Config.mk pname [throwOnInvBegin e] prid
        (.named 0 :: rest) [(0, PairCell.mk nm (.anon b))]) [] c x).events
      = [reqBeginEv x pname prid c,
         invBeginEv (c + 1) x (some nm) pname prid c,
         invEndFailEv (c + 1) x (some nm) (.raised e) pname prid c,
         reqEndFailEv x (.raised e) pname prid c] ∧
    (∀ (pn' : String) (prid' : Option Nat) (ms : List (Entry V E))
        (st : Store V E) (mods : List (Modification V E)) (c' : Nat) (x' : V),
      (handleRequest (Config.mk pn' [throwAlways e] prid' ms st) mods c' x').result
        = .error (.raised e) ∧
      (handleRequest (Config.mk pn' [throwAlways e] prid' ms st) mods c' x').executed
        = [] ∧
      (handleRequest (Config.mk pn' [throwAlways e] prid' ms st) mods c' x').events
        = [reqBeginEv x' pn' prid' c']) := by
  have hga : falsyName (some nm) = false := by
    simp [falsyName, hnm]
  refine ⟨?_, ?_, ?_, fun pn' prid' ms st mods c' x' => ⟨rfl, rfl, rfl⟩⟩ <;>
  · unfold handleRequest runChain invoke invokeCatch
    rw [modify_nil]
    simp [notifyWithoutOutput, fireAll, throwOnInvBegin, nameOfEntry,
      Store.findCell, hga, reqBeginEv, invBeginEv, invEndFailEv, reqEndFailEv,
      Trace.append]

end Lithe

namespace Lithe

/-- Witness for C10. -/
theorem plugin_throw_aborts_request_witness :
    ("mw" : String) ≠ "" ∧
    (handleRequest (Config.mk "p" [throwOnInvBegin (7 : Nat)] none
        ([.named 0] : List (Entry Nat Nat))
        [(0, PairCell.mk "mw" (.anon (.thenNext (fun n => n + 1))))]) [] 0 3).result
      = .error (.raised 7) :=
  ⟨by decide,
    (plugin_throw_aborts_request 7 "p" none "mw" (.thenNext (fun n => n + 1))
      [] 0 3 (by decide)).1⟩

theorem Trace.events_append (t u : Trace V E) :
    (t.append u).events = t.events ++ u.events := rfl

/-- An event emitted by `notifyWithoutOutput` is the notified event itself,
and an emitted invocation-type event necessarily has a truthy name. -/
theorem notifyWithoutOutput_mem (pl : List (Plugin V E)) (ev ev' : Event V E)
    (h : ev' ∈ (notifyWithoutOutput pl ev).1) :
    ev' = ev ∧
    ((ev.etype = .invocationBegin ∨ ev.etype = .invocationEnd) →
      falsyName ev.name = false) := by
  unfold notifyWithoutOutput at h
  split at h
  · simp at h
  · rename_i hgate
    simp only [List.mem_singleton] at h
    refine ⟨h, fun ht => ?_⟩
    simp only [Bool.and_eq_true, Bool.or_eq_true, beq_iff_eq] at hgate
    rcases Bool.eq_false_or_eq_true (falsyName ev.name) with hf | hf
    · exact absurd ⟨by rcases ht with ht | ht <;> simp [ht], hf⟩ hgate
    · exact hf

/-- An event emitted by `notifyWithOutput` is the notified event, and an
emitted invocation-end event necessarily has a truthy name. -/
theorem notifyWithOutput_mem (pl : List (Plugin V E)) (ev ev' : Event V E)
    (h : ev' ∈ (notifyWithOutput pl ev).1) :
    ev' = ev ∧ (ev.etype = .invocationEnd → falsyName ev.name = false) := by
  unfold notifyWithOutput at h
  split at h
  · simp at h
  · rename_i hgate
    simp only [List.mem_singleton] at h
    refine ⟨h, fun ht => ?_⟩
    simp only [Bool.and_eq_true, beq_iff_eq] at hgate
    rcases Bool.eq_false_or_eq_true (falsyName ev.name) with hf | hf
    · exact absurd ⟨ht, hf⟩ hgate
    · exact hf

/-- Shape of the events emitted by `invokeCatch`: anything beyond the events
already collected carries the given correlation ids, and invocation-type
events have truthy names. -/
theorem invokeCatch_events_shape (pl : List (Plugin V E)) (iid : Nat) (input : V)
    (name : Option String) (pn : String) (prid : Option Nat) (rid : Nat)
    (evs : List (Event V E)) (ex cs : List Nat) (err : RunError E)
    (ev : Event V E)
    (h : ev ∈ (invokeCatch pl iid input name pn prid rid evs ex cs err).1.events) :
    ev ∈ evs ∨
    (ev.prid = prid ∧ ev.rid = rid ∧ ev.pipelineName = pn ∧
      ((ev.etype = .invocationBegin ∨ ev.etype = .invocationEnd) →
        falsyName ev.name = false)) := by
  unfold invokeCatch at h
  dsimp only at h
  rw [List.mem_append] at h
  rcases h with h | h
  · exact Or.inl h
  · obtain ⟨rfl, hf⟩ := notifyWithoutOutput_mem _ _ _ h
    exact Or.inr ⟨rfl, rfl, rfl, fun _ => hf (Or.inr rfl)⟩

/-- Shape of the events emitted by `invoke`. -/
theorem invoke_events_shape (pl : List (Plugin V E)) (st : Store V E)
    (pn : String) (prid : Option Nat) (rid iid : Nat) (entry : Entry V E)
    (x : V) (ev : Event V E)
    (h : ev ∈ (invoke pl st pn prid rid iid entry x).1.events) :
    ev.prid = prid ∧ ev.rid = rid ∧ ev.pipelineName = pn ∧
    ((ev.etype = .invocationBegin ∨ ev.etype = .invocationEnd) →
      falsyName ev.name = false) := by
  have hbegin : ∀ ev', ev' ∈ (notifyWithoutOutput pl
      (invBeginEv iid x (nameOfEntry st entry) pn prid rid : Event V E)).1 →
      ev'.prid = prid ∧ ev'.rid = rid ∧ ev'.pipelineName = pn ∧
      ((ev'.etype = .invocationBegin ∨ ev'.etype = .invocationEnd) →
        falsyName ev'.name = false) := by
    intro ev' h'
    obtain ⟨rfl, hf⟩ := notifyWithoutOutput_mem _ _ _ h'
    exact ⟨rfl, rfl, rfl, fun _ => hf (Or.inl rfl)⟩
  unfold invoke at h
  dsimp only at h
  revert h
  cases (notifyWithoutOutput pl
      (invBeginEv iid x (nameOfEntry st entry) pn prid rid : Event V E)).2 with
  | error e =>
    intro h
    rcases invokeCatch_events_shape _ _ _ _ _ _ _ _ _ _ _ _ h with h | h
    · exact hbegin ev h
    · exact h
  | ok u =>
    cases bodyOfEntry st entry with
    | none =>
      intro h
      rcases invokeCatch_events_shape _ _ _ _ _ _ _ _ _ _ _ _ h with h | h
      · exact hbegin ev h
      · exact h
    | some b =>
      dsimp only
      cases (execBody engineNext x b).2.1 with
      | error e =>
        intro h
        rcases invokeCatch_events_shape _ _ _ _ _ _ _ _ _ _ _ _ h with h | h
        · exact hbegin ev h
        · exact h
      | ok out =>
        dsimp only
        cases (notifyWithOutput pl
            (invEndSuccEv iid x (nameOfEntry st entry) out pn prid rid : Event V E)).2 with
        | error e =>
          intro h
          rcases invokeCatch_events_shape _ _ _ _ _ _ _ _ _ _ _ _ h with h | h
          · rw [List.mem_append] at h
            rcases h with h | h
            · exact hbegin ev h
            · obtain ⟨rfl, hf⟩ := notifyWithOutput_mem _ _ _ h
              exact ⟨rfl, rfl, rfl, fun _ => hf rfl⟩
          · exact h
        | ok r =>
          intro h
          rw [List.mem_append] at h
          rcases h with h | h
          · exact hbegin ev h
          · obtain ⟨rfl, hf⟩ := notifyWithOutput_mem _ _ _ h
            exact ⟨rfl, rfl, rfl, fun _ => hf rfl⟩

/-- Shape of the events emitted by `runChain`. -/
theorem runChain_events_shape (pl : List (Plugin V E)) (st : Store V E)
    (pn : String) (prid : Option Nat) (rid : Nat) :
    ∀ (seq : List (Entry V E)) (c : Nat) (cur : Entry V E) (x : V)
      (ev : Event V E),
    ev ∈ (runChain pl st pn prid rid c cur seq x).1.events →
    ev.prid = prid ∧ ev.rid = rid ∧ ev.pipelineName = pn ∧
    ((ev.etype = .invocationBegin ∨ ev.etype = .invocationEnd) →
      falsyName ev.name = false) := by
  intro seq
  induction seq with
  | nil =>
    intro c cur x ev h
    unfold runChain at h
    dsimp only at h
    rcases hiv : (invoke pl st pn prid rid c cur x).2 with e | vb
    · rw [hiv] at h
      exact invoke_events_shape pl st pn prid rid c cur x ev h
    · rw [hiv] at h
      obtain ⟨v, called⟩ := vb
      cases called <;> dsimp only at h <;>
        exact invoke_events_shape pl st pn prid rid c cur x ev h
  | cons nxt rest ih =>
    intro c cur x ev h
    unfold runChain at h
    dsimp only at h
    rcases hiv : (invoke pl st pn prid rid c cur x).2 with e | vb
    · rw [hiv] at h
      exact invoke_events_shape pl st pn prid rid c cur x ev h
    · rw [hiv] at h
      obtain ⟨v, called⟩ := vb
      cases called with
      | false =>
        dsimp only at h
        exact invoke_events_shape pl st pn prid rid c cur x ev h
      | true =>
        dsimp only at h
        rw [if_pos rfl] at h
        rw [Trace.events_append, List.mem_append] at h
        rcases h with h | h
        · exact invoke_events_shape pl st pn prid rid c cur x ev h
        · exact ih (c + 1) nxt v ev h

/-- Shape of the events emitted by one request: every event carries the
pipeline's parent tag as `prid`, the request's `rid` and the pipeline name,
and every invocation-type event has a truthy (non-undefined, non-empty)
middleware name — events of anonymous middlewares are suppressed entirely. -/
theorem handleRequest_events_shape (cfg : Config V E)
    (mods : List (Modification V E)) (c : Nat) (x : V) (ev : Event V E)
    (h : ev ∈ (handleRequest cfg mods c x).events) :
    ev.prid = cfg.parentTag ∧ ev.rid = c ∧ ev.pipelineName = cfg.pipelineName ∧
    ((ev.etype = .invocationBegin ∨ ev.etype = .invocationEnd) →
      falsyName ev.name = false) := by
  have hwo : ∀ (ev0 : Event V E), ev0.prid = cfg.parentTag → ev0.rid = c →
      ev0.pipelineName = cfg.pipelineName →
      ∀ ev', ev' ∈ (notifyWithoutOutput cfg.plugins ev0).1 →
      ev'.prid = cfg.parentTag ∧ ev'.rid = c ∧ ev'.pipelineName = cfg.pipelineName ∧
      ((ev'.etype = .invocationBegin ∨ ev'.etype = .invocationEnd) →
        falsyName ev'.name = false) := by
    intro ev0 h1 h2 h3 ev' h'
    obtain ⟨rfl, hf⟩ := notifyWithoutOutput_mem _ _ _ h'
    exact ⟨h1, h2, h3, hf⟩
  have hw : ∀ (ev0 : Event V E), ev0.prid = cfg.parentTag → ev0.rid = c →
      ev0.pipelineName = cfg.pipelineName → ev0.etype = .requestEnd →
      ∀ ev', ev' ∈ (notifyWithOutput cfg.plugins ev0).1 →
      ev'.prid = cfg.parentTag ∧ ev'.rid = c ∧ ev'.pipelineName = cfg.pipelineName ∧
      ((ev'.etype = .invocationBegin ∨ ev'.etype = .invocationEnd) →
        falsyName ev'.name = false) := by
    intro ev0 h1 h2 h3 h4 ev' h'
    obtain ⟨rfl, _⟩ := notifyWithOutput_mem _ _ _ h'
    refine ⟨h1, h2, h3, fun ht => ?_⟩
    rcases ht with ht | ht <;> rw [h4] at ht <;> cases ht
  unfold handleRequest at h
  dsimp only at h
  rcases hnb : (notifyWithoutOutput cfg.plugins
      (reqBeginEv x cfg.pipelineName cfg.parentTag c : Event V E)).2 with e | u
  · rw [hnb] at h
    exact hwo _ rfl rfl rfl ev h
  · rw [hnb] at h
    dsimp only at h
    rcases hm : (modify cfg.store cfg.middlewares mods).2 with err | seq
    · rw [hm] at h
      dsimp only at h
      rw [List.mem_append] at h
      rcases h with h | h
      · exact hwo _ rfl rfl rfl ev h
      · exact hwo _ rfl rfl rfl ev h
    · rw [hm] at h
      dsimp only at h
      cases seq with
      | nil =>
        dsimp only at h
        rw [List.mem_append] at h
        rcases h with h | h
        · exact hwo _ rfl rfl rfl ev h
        · exact hw _ rfl rfl rfl rfl ev h
      | cons first rest =>
        dsimp only at h
        rcases hrc : (runChain cfg.plugins (modify cfg.store cfg.middlewares mods).1
            cfg.pipelineName cfg.parentTag c (c + 1) first rest x).2 with err | out
        · rw [hrc] at h
          dsimp only at h
          rw [List.mem_append, List.mem_append] at h
          rcases h with (h | h) | h
          · exact hwo _ rfl rfl rfl ev h
          · exact runChain_events_shape cfg.plugins _ cfg.pipelineName
              cfg.parentTag c rest (c + 1) first x ev h
          · exact hwo _ rfl rfl rfl ev h
        · rw [hrc] at h
          dsimp only at h
          rw [List.mem_append, List.mem_append] at h
          rcases h with (h | h) | h
          · exact hwo _ rfl rfl rfl ev h
          · exact runChain_events_shape cfg.plugins _ cfg.pipelineName
              cfg.parentTag c rest (c + 1) first x ev h
          · exact hw _ rfl rfl rfl rfl ev h

end Lithe

namespace Lithe

theorem notifyWithoutOutput_events_req (pl : List (Plugin V E)) (ev : Event V E)
    (h : ev.etype = .requestBegin ∨ ev.etype = .requestEnd) :
    (notifyWithoutOutput pl ev).1 = [ev] := by
  unfold notifyWithoutOutput
  rcases h with h | h <;> rw [h] <;> rfl

theorem notifyWithOutput_events_req (pl : List (Plugin V E)) (ev : Event V E)
    (h : ev.etype = .requestEnd) :
    (notifyWithOutput pl ev).1 = [ev] := by
  unfold notifyWithOutput
  rw [h]
  rfl

/-- Under plugins that do not throw, a request's event stream starts with
request-begin and ends with request-end. -/
theorem handleRequest_first_last (cfg : Config V E)
    (mods : List (Modification V E)) (c : Nat) (x : V)
    (hpl : NoThrow cfg.plugins) :
    ((handleRequest cfg mods c x).events.head?).map Event.etype
      = some .requestBegin ∧
    ((handleRequest cfg mods c x).events.getLast?).map Event.etype
      = some .requestEnd := by
  have hnb : (notifyWithoutOutput cfg.plugins
      (reqBeginEv x cfg.pipelineName cfg.parentTag c : Event V E)).2 = .ok () := by
    simp [notifyWithoutOutput, reqBeginEv, fireAll_ok _ _ hpl]
  have hb := notifyWithoutOutput_events_req cfg.plugins
    (reqBeginEv x cfg.pipelineName cfg.parentTag c : Event V E) (Or.inl rfl)
  unfold handleRequest
  dsimp only
  rw [hnb]
  dsimp only
  rcases hm : (modify cfg.store cfg.middlewares mods).2 with err | seq
  · dsimp only
    rw [hb, notifyWithoutOutput_events_req cfg.plugins _ (Or.inr rfl)]
    exact ⟨rfl, by rw [List.getLast?_concat]; rfl⟩
  · dsimp only
    cases seq with
    | nil =>
      dsimp only
      rw [hb, notifyWithOutput_events_req cfg.plugins _ rfl]
      exact ⟨rfl, by rw [List.getLast?_concat]; rfl⟩
    | cons first rest =>
      dsimp only
      rcases hrc : (runChain cfg.plugins (modify cfg.store cfg.middlewares mods).1
          cfg.pipelineName cfg.parentTag c (c + 1) first rest x).2 with err | out
      · dsimp only
        rw [hb, notifyWithoutOutput_events_req cfg.plugins _ (Or.inr rfl)]
        constructor
        · rw [List.singleton_append]
          rfl
        · rw [List.getLast?_concat]
          rfl
      · dsimp only
        rw [hb, notifyWithOutput_events_req cfg.plugins _ rfl]
        constructor
        · rw [List.singleton_append]
          rfl
        · rw [List.getLast?_concat]
          rfl

/-- C8: events for middlewares with no resolvable name are suppressed
entirely — every delivered invocation-type event has a truthy name, so none is
delivered with an undefined name — while request-begin and request-end are
still delivered (they bracket every run whose plugins do not throw); and an
anonymous middleware can never be the target of a before/after/replace/skip
modification, because the resolver's name lookup never matches it. -/
theorem anonymous_middleware_events_suppressed :
    (∀ (cfg : Config V E) (mods : List (Modification V E)) (c : Nat) (x : V)
        (ev : Event V E), ev ∈ (handleRequest cfg mods c x).events →
      (ev.etype = .invocationBegin ∨ ev.etype = .invocationEnd) →
      ev.name ≠ none ∧ ev.name ≠ some "") ∧
    (∀ (cfg : Config V E) (mods : List (Modification V E)) (c : Nat) (x : V),
      NoThrow cfg.plugins →
      ((handleRequest cfg mods c x).events.head?).map Event.etype
        = some .requestBegin ∧
      ((handleRequest cfg mods c x).events.getLast?).map Event.etype
        = some .requestEnd) ∧
    (∀ (st : Store V E) (b : MWBody V E) (ref : String),
      matchesRef st ref (.anon b) = false) := by
  refine ⟨fun cfg mods c x ev h ht => ?_, handleRequest_first_last, fun st b ref => rfl⟩
  have hf := (handleRequest_events_shape cfg mods c x ev h).2.2.2 ht
  cases hn : ev.name with
  | none => rw [hn] at hf; cases hf
  | some s =>
    refine ⟨by simp [hn], ?_⟩
    rw [hn] at hf
    simp only [falsyName] at hf
    simp [hn]
    intro hs
    rw [hs] at hf
    simp at hf

/-- Witness for C8. -/
theorem anonymous_middleware_events_suppressed_witness :
    ((invBeginEv 1 3 (some "mw") "p" none 0 : Event Nat Nat) ∈
      (handleRequest (Config.mk "p" [] none [.named 0]
        [(0, PairCell.mk "mw" (.anon (.thenNext (fun n => n + 1))))]) [] 0 3).events) ∧
    (invBeginEv 1 3 (some "mw") "p" none 0 : Event Nat Nat).name ≠ none ∧
    ((handleRequest (Config.mk "p" [] none
        ([.anon (.thenNext (fun n => n + 1))] : List (Entry Nat Nat))
        ([] : Store Nat Nat)) [] 0 3).events.head?).map Event.etype
      = some .requestBegin ∧
    matchesRef ([] : Store Nat Nat) "x" (.anon (.thenNext (fun n => n + 1))) = false := by
  have hmem : (invBeginEv 1 3 (some "mw") "p" none 0 : Event Nat Nat) ∈
      (handleRequest (Config.mk "p" [] none [.named 0]
        [(0, PairCell.mk "mw" (.anon (.thenNext (fun n => n + 1))))]) [] 0 3).events := by
    decide
  refine ⟨hmem, ?_, ?_, ?_⟩
  · exact (anonymous_middleware_events_suppressed.1 _ [] 0 3 _ hmem (Or.inl rfl)).1
  · exact (anonymous_middleware_events_suppressed.2.1 _ [] 0 3 noThrow_nil).1
  · exact anonymous_middleware_events_suppressed.2.2 ([] : Store Nat Nat) _ "x"

/-- C9: `connect` keeps the configuration (name, plugins, shared pair store)
and appends exactly one synthetic middleware that calls the continuation,
tagging the new pipeline with the continuation's rid tag as parent — so every
lifecycle event emitted while executing the connected pipeline carries `prid`
equal to the tag (pipeline A's request id). -/
theorem connect_appends_continuation_and_links_prid
    (cfgB : Config V E) (cont : Continuation V) :
    (connect cfgB cont).pipelineName = cfgB.pipelineName ∧
    (connect cfgB cont).plugins = cfgB.plugins ∧
    (connect cfgB cont).store = cfgB.store ∧
    (connect cfgB cont).middlewares
      = cfgB.middlewares ++ [.anon (.useCont cont.tag cont.fn)] ∧
    (∀ (mods : List (Modification V E)) (c : Nat) (x : V) (ev : Event V E),
      ev ∈ (handleRequest (connect cfgB cont) mods c x).events →
      ev.prid = some cont.tag) := by
  refine ⟨rfl, rfl, rfl, rfl, fun mods c x ev h => ?_⟩
  have h1 := (handleRequest_events_shape (connect cfgB cont) mods c x ev h).1
  simpa [connect] using h1

/-- Witness for C9. -/
theorem connect_appends_continuation_and_links_prid_witness :
    ((reqBeginEv 3 "b" (some 5) 0 : Event Nat Nat) ∈
      (handleRequest (connect (Config.mk "b" [] none [] ([] : Store Nat Nat))
        (Continuation.mk 5 (fun v => v))) [] 0 3).events) ∧
    (reqBeginEv 3 "b" (some 5) 0 : Event Nat Nat).prid = some 5 := by
  have hmem : (reqBeginEv 3 "b" (some 5) 0 : Event Nat Nat) ∈
      (handleRequest (connect (Config.mk "b" [] none [] ([] : Store Nat Nat))
        (Continuation.mk 5 (fun v => v))) [] 0 3).events := by
    decide
  exact ⟨hmem,
    (connect_appends_continuation_and_links_prid
      (Config.mk "b" [] none [] ([] : Store Nat Nat))
      (Continuation.mk 5 (fun v => v))).2.2.2.2 [] 0 3 _ hmem⟩

end Lithe

namespace Lithe

/-- A plugin built from a pure replacement policy `g`: on each event it
returns `g event` (a replacement value or nothing) and never throws. -/
def mkReplacer (g : Event V E → Option V) : Plugin V E :=
  Plugin.mk (fun ev => .ok (g ev))

theorem noThrow_replacers (gs : List (Event V E → Option V)) :
    NoThrow (gs.map mkReplacer) := by
  intro p hp ev
  rw [List.mem_map] at hp
  obtain ⟨g, _, rfl⟩ := hp
  exact ⟨g ev, rfl⟩

theorem notifyWithoutOutput_truthy (pl : List (Plugin V E)) (ev : Event V E)
    (h : falsyName ev.name = false) :
    notifyWithoutOutput pl ev = ([ev], fireAll pl ev) := by
  unfold notifyWithoutOutput
  rw [h, Bool.and_false]
  rfl

theorem notifyWithOutput_truthy (pl : List (Plugin V E)) (ev : Event V E)
    (h : falsyName ev.name = false) :
    notifyWithOutput pl ev = ([ev], replaceFold ev pl ev.output) := by
  unfold notifyWithOutput
  rw [h, Bool.and_false]
  rfl

/-- The plugin loop over replacer plugins computes exactly the
registration-order fold: each plugin sees the previous output, a returned
value replaces it, a `none` carries it forward. -/
theorem replaceFold_replacers (gs : List (Event V E → Option V)) (ev : Event V E) :
    ∀ out, replaceFold ev (gs.map mkReplacer) out
      = .ok (gs.foldl (fun o g =>
          match g (ev.withOutput o) with
          | some v => some v
          | none => o) out) := by
  induction gs with
  | nil => intro out; rfl
  | cons g gs ih =>
    intro out
    simp only [List.map_cons, replaceFold, mkReplacer, List.foldl_cons]
    exact ih _

theorem foldl_replacer_some (gs : List (Event V E → Option V)) (ev : Event V E) :
    ∀ (a : V), gs.foldl (fun o g =>
        match g (ev.withOutput o) with
        | some v => some v
        | none => o) (some a)
      = some (gs.foldl (fun o g => (g (ev.withOutput (some o))).getD o) a) := by
  induction gs with
  | nil => intro a; rfl
  | cons g gs ih =>
    intro a
    simp only [List.foldl_cons]
    cases hg : g (ev.withOutput (some a)) with
    | none => simpa [hg, Option.getD] using ih a
    | some v => simpa [hg, Option.getD] using ih v

/-- C7: for success events carrying output (request-end, and invocation-end
with a truthy name), each registered plugin is invoked in registration order
with the event carrying the current output; a returned value becomes the
output seen by the next plugin and — for invocation-end — the value `invoke`
hands back to the loop as the input of the following middleware; a plugin
returning nothing carries the previous output forward; and a failing
invocation solicits no replacement: the middleware's error is rethrown
unchanged whatever the plugins would return. -/
theorem plugin_output_replacement (gs : List (Event V E → Option V)) :
    (∀ ev : Event V E, (ev.etype = .invocationEnd → falsyName ev.name = false) →
      (notifyWithOutput (gs.map mkReplacer) ev).2
        = .ok (gs.foldl (fun o g =>
            match g (ev.withOutput o) with
            | some v => some v
            | none => o) ev.output)) ∧
    (∀ (st : Store V E) (pn : String) (prid : Option Nat) (rid iid cid : Nat)
        (nm : String) (f : V → V) (x : V),
      st.findCell cid = some (PairCell.mk nm (.anon (.thenNext f))) → nm ≠ "" →
      (invoke (gs.map mkReplacer) st pn prid rid iid (.named cid) x).2
        = .ok (gs.foldl (fun o g =>
            (g ((invEndSuccEv iid x (some nm) (f x) pn prid rid : Event V E).withOutput
                (some o))).getD o) (f x), true)) ∧
    (∀ (st : Store V E) (pn : String) (prid : Option Nat) (rid iid : Nat)
        (e : E) (x : V),
      (invoke (gs.map mkReplacer) st pn prid rid iid (.anon (.fail e)) x).2
        = .error (.raised e)) := by
  refine ⟨?_, ?_, ?_⟩
  · intro ev h
    have hg : (ev.etype == EventType.invocationEnd && falsyName ev.name) = false := by
      by_cases he : ev.etype = .invocationEnd
      · rw [h he, Bool.and_false]
      · have : (ev.etype == EventType.invocationEnd) = false := by
          simp [he]
        rw [this, Bool.false_and]
    unfold notifyWithOutput
    rw [hg]
    simp only [Bool.false_eq_true, if_false]
    exact replaceFold_replacers gs ev ev.output
  · intro st pn prid rid iid cid nm f x hcell hnm
    have hga : falsyName (some nm) = false := by simp [falsyName, hnm]
    have hname : nameOfEntry st (.named cid) = some nm := by
      unfold nameOfEntry
      dsimp only
      rw [hcell]
    have hbody : bodyOfEntry st (.named cid) = some (.thenNext f) := by
      unfold bodyOfEntry
      dsimp only
      rw [hcell]
    unfold invoke
    rw [hname, hbody]
    dsimp only
    rw [notifyWithoutOutput_truthy _ _ hga]
    dsimp only
    rw [fireAll_ok _ _ (noThrow_replacers gs)]
    dsimp only [execBody, engineNext]
    rw [notifyWithOutput_truthy _ _ hga]
    dsimp only
    rw [replaceFold_replacers gs _ _]
    dsimp only [invEndSuccEv]
    rw [foldl_replacer_some]
    rfl
  · intro st pn prid rid iid e x
    rfl

/-- Witness for C7 at a concrete replacement chain: one plugin appends 10 via
replacement, the next sees 13 and returns nothing, so 13 flows onward. -/
theorem plugin_output_replacement_witness :
    Store.findCell
        ([(0, PairCell.mk "mw" (.anon (.thenNext (fun n => n + 1))))] :
          Store Nat Nat) 0
      = some (PairCell.mk "mw" (.anon (.thenNext (fun n => n + 1)))) ∧
    ("mw" : String) ≠ "" ∧
    (invoke (([fun ev => (ev.output.map (fun v => v + 10) : Option Nat),
        fun _ => none] : List (Event Nat Nat → Option Nat)).map mkReplacer)
        [(0, PairCell.mk "mw" (.anon (.thenNext (fun n => n + 1))))]
        "p" none 0 1 (.named 0) 2).2
      = .ok (13, true) := by
  refine ⟨rfl, by decide, ?_⟩
  have h := (plugin_output_replacement
    ([fun ev => (ev.output.map (fun v => v + 10) : Option Nat),
      fun _ => none] : List (Event Nat Nat → Option Nat))).2.1
    [(0, PairCell.mk "mw" (.anon (.thenNext (fun n => n + 1))))]
    "p" none 0 1 0 "mw" (fun n => n + 1) 2 rfl (by decide)
  rw [h]
  rfl

end Lithe

namespace Lithe

/-! Generic facts about the insertion sort used to model `Array.prototype.sort`
under a total comparator. -/

theorem sortInsert_perm (le : α → α → Bool) (x : α) :
    ∀ l : List α, (sortInsert le x l).Perm (x :: l) := by
  intro l
  induction l with
  | nil => exact List.Perm.refl _
  | cons y ys ih =>
    unfold sortInsert
    by_cases h : le x y = true
    · rw [if_pos h]
    · rw [if_neg h]
      exact ((ih.cons y).trans (List.Perm.swap x y ys))

theorem insortBy_perm (le : α → α → Bool) :
    ∀ l : List α, (insortBy le l).Perm l := by
  intro l
  induction l with
  | nil => exact List.Perm.refl _
  | cons x xs ih =>
    unfold insortBy
    exact (sortInsert_perm le x (insortBy le xs)).trans (ih.cons x)

theorem mem_sortInsert (le : α → α → Bool) (x : α) (l : List α) (a : α) :
    a ∈ sortInsert le x l ↔ a = x ∨ a ∈ l := by
  rw [(sortInsert_perm le x l).mem_iff]
  simp

theorem sortInsert_pairwise (le : α → α → Bool)
    (htot : ∀ a b, le a b = true ∨ le b a = true)
    (htrans : ∀ a b c, le a b = true → le b c = true → le a c = true)
    (x : α) :
    ∀ l : List α, l.Pairwise (fun a b => le a b = true) →
    (sortInsert le x l).Pairwise (fun a b => le a b = true) := by
  intro l
  induction l with
  | nil => intro _; exact List.pairwise_singleton _ _
  | cons y ys ih =>
    intro h
    rw [List.pairwise_cons] at h
    obtain ⟨hy, hys⟩ := h
    unfold sortInsert
    by_cases hxy : le x y = true
    · rw [if_pos hxy]
      rw [List.pairwise_cons]
      refine ⟨?_, List.pairwise_cons.mpr ⟨hy, hys⟩⟩
      intro b hb
      rcases List.mem_cons.mp hb with rfl | hb
      · exact hxy
      · exact htrans x y b hxy (hy b hb)
    · rw [if_neg hxy]
      rw [List.pairwise_cons]
      have hyx : le y x = true := (htot x y).resolve_left hxy
      refine ⟨?_, ih hys⟩
      intro b hb
      rw [mem_sortInsert] at hb
      rcases hb with rfl | hb
      · exact hyx
      · exact hy b hb

theorem insortBy_pairwise (le : α → α → Bool)
    (htot : ∀ a b, le a b = true ∨ le b a = true)
    (htrans : ∀ a b c, le a b = true → le b c = true → le a c = true) :
    ∀ l : List α, (insortBy le l).Pairwise (fun a b => le a b = true) := by
  intro l
  induction l with
  | nil => exact List.Pairwise.nil
  | cons x xs ih =>
    unfold insortBy
    exact sortInsert_pairwise le htot htrans x _ ih

theorem insortBy_of_pairwise (le : α → α → Bool) :
    ∀ l : List α, l.Pairwise (fun a b => le a b = true) → insortBy le l = l := by
  intro l
  induction l with
  | nil => intro _; rfl
  | cons x xs ih =>
    intro h
    rw [List.pairwise_cons] at h
    obtain ⟨hx, hxs⟩ := h
    unfold insortBy
    rw [ih hxs]
    cases xs with
    | nil => rfl
    | cons y ys =>
      unfold sortInsert
      rw [if_pos (hx y (List.mem_cons_self y ys))]

theorem sorted_perm_unique (le : α → α → Bool) :
    ∀ (l₁ l₂ : List α), l₁.Perm l₂ →
    l₁.Pairwise (fun a b => le a b = true) →
    l₂.Pairwise (fun a b => le a b = true) →
    (∀ a ∈ l₁, ∀ b ∈ l₁, le a b = true → le b a = true → a = b) →
    l₁ = l₂ := by
  intro l₁
  induction l₁ with
  | nil =>
    intro l₂ hp _ _ _
    exact (List.Perm.nil_eq hp).symm ▸ rfl
  | cons a t₁ ih =>
    intro l₂ hp h₁ h₂ hanti
    cases l₂ with
    | nil => exact absurd hp.symm (by simp)
    | cons b t₂ =>
      have hab : a = b := by
        have hain : a ∈ b :: t₂ := hp.mem_iff.mp (List.mem_cons_self a t₁)
        have hbin : b ∈ a :: t₁ := hp.symm.mem_iff.mp (List.mem_cons_self b t₂)
        rcases List.mem_cons.mp hain with h | hat₂
        · exact h
        rcases List.mem_cons.mp hbin with h | hbt₁
        · exact h.symm
        have hle1 : le a b = true :=
          (List.pairwise_cons.mp h₁).1 b hbt₁
        have hle2 : le b a = true :=
          (List.pairwise_cons.mp h₂).1 a hat₂
        exact hanti a (List.mem_cons_self a t₁) b (List.mem_cons_of_mem a hbt₁) hle1 hle2
      subst hab
      have ht : t₁.Perm t₂ := hp.cons_inv
      have := ih t₂ ht (List.pairwise_cons.mp h₁).2 (List.pairwise_cons.mp h₂).2
        (fun x hx y hy => hanti x (List.mem_cons_of_mem a hx) y (List.mem_cons_of_mem a hy))
      rw [this]

end Lithe

namespace Lithe

/-! Association-list and range facts used to compute the resolver's dependency
graph on modification chains. -/

theorem find_map_range_of_inj (F : Nat → String) (W : Nat → List String) :
    ∀ (n : Nat), (∀ i, i < n → ∀ j, j < n → F i = F j → i = j) →
    ∀ i, i < n →
    ((List.range n).map (fun j => (F j, W j))).find? (fun p => p.1 == F i)
      = some (F i, W i) := by
  intro n
  induction n with
  | zero => intro _ i hi; omega
  | succ n ih =>
    intro hinj i hi
    rw [List.range_succ, List.map_append, List.find?_append]
    by_cases hin : i < n
    · rw [ih (fun a ha b hb => hinj a (by omega) b (by omega)) i hin]
      rw [Option.or_some]
    · have hieq : i = n := by omega
      rw [hieq]
      have hnone : ((List.range n).map (fun j => (F j, W j))).find?
          (fun p => p.1 == F n) = none := by
        rw [List.find?_eq_none]
        intro x hx
        rw [List.mem_map] at hx
        obtain ⟨j, hj, rfl⟩ := hx
        rw [List.mem_range] at hj
        simp only [beq_iff_eq]
        intro hFji
        have := hinj j (by omega) n (by omega) hFji
        omega
      rw [hnone]
      simp

theorem find_map_range_none (F : Nat → String) (W : Nat → List String)
    (n : Nat) (s : String) (hs : ∀ j, j < n → s ≠ F j) :
    ((List.range n).map (fun j => (F j, W j))).find? (fun p => p.1 == s)
      = none := by
  rw [List.find?_eq_none]
  intro x hx
  rw [List.mem_map] at hx
  obtain ⟨j, hj, rfl⟩ := hx
  rw [List.mem_range] at hj
  simp only [beq_iff_eq]
  exact fun hFj => hs j hj hFj.symm

theorem get_map_range_of_inj (F : Nat → String) (W : Nat → List String)
    (n : Nat) (hinj : ∀ i, i < n → ∀ j, j < n → F i = F j → i = j)
    (i : Nat) (hi : i < n) :
    Graph.get ((List.range n).map (fun j => (F j, W j))) (F i) = some (W i) := by
  unfold Graph.get
  rw [find_map_range_of_inj F W n hinj i hi]
  rfl

theorem get_map_range_none (F : Nat → String) (W : Nat → List String)
    (n : Nat) (s : String) (hs : ∀ j, j < n → s ≠ F j) :
    Graph.get ((List.range n).map (fun j => (F j, W j))) s = none := by
  unfold Graph.get
  rw [find_map_range_none F W n s hs]
  rfl

theorem set_absent (g : Graph) (k : String) (v : List String)
    (h : g.find? (fun p => p.1 == k) = none) :
    Graph.set g k v = g ++ [(k, v)] := by
  unfold Graph.set
  rw [h]
  rfl

theorem set_append_self (g : Graph) (k : String) (v v' : List String)
    (h : g.find? (fun p => p.1 == k) = none) :
    Graph.set (g ++ [(k, v)]) k v' = g ++ [(k, v')] := by
  unfold Graph.set
  have hfind : ((g ++ [(k, v)]).find? (fun p => p.1 == k)) = some (k, v) := by
    rw [List.find?_append, h]
    simp
  rw [hfind]
  simp only [Option.isSome_some, if_true]
  rw [List.map_append]
  congr 1
  · rw [List.find?_eq_none] at h
    apply List.map_congr_left ?_ |>.trans (List.map_id g)
    intro p hp
    have := h p hp
    simp only [Bool.not_eq_true] at this
    rw [this]
    rfl
  · simp

theorem reverse_range (k : Nat) :
    (List.range k).reverse = (List.range k).map (fun t => k - 1 - t) := by
  induction k with
  | zero => rfl
  | succ k ih =>
    conv_lhs => rw [List.range_succ]
    rw [List.reverse_append, ih]
    conv_rhs => rw [List.range_succ_eq_map]
    rw [List.map_cons, List.map_map]
    simp only [List.reverse_singleton, List.singleton_append]
    congr 1 <;>
      first
        | omega
        | (apply List.map_congr_left
           intro a _
           simp only [Function.comp_apply]
           omega)

theorem enumFrom_map_range :
    ∀ (k : Nat) (hh : Nat → α) (s : Nat),
    List.enumFrom s ((List.range k).map hh)
      = (List.range k).map (fun j => (s + j, hh j)) := by
  intro k
  induction k with
  | zero => intro hh s; rfl
  | succ k ih =>
    intro hh s
    simp only [List.range_succ_eq_map, List.map_cons, List.map_map]
    show (s, hh 0) :: List.enumFrom (s + 1)
        (List.map (hh ∘ Nat.succ) (List.range k)) = _
    rw [ih (hh ∘ Nat.succ) (s + 1)]
    congr 1 <;>
      first
        | (simp
           done)
        | (apply List.map_congr_left
           intro a _
           simp only [Function.comp_apply, Prod.mk.injEq, Nat.succ_eq_add_one]
           first
             | omega
             | exact ⟨by omega, trivial⟩
             | exact ⟨by omega, rfl⟩)

theorem enum_map_range (h : Nat → α) (k : Nat) :
    ((List.range k).map h).enum = (List.range k).map (fun j => (j, h j)) := by
  show List.enumFrom 0 _ = _
  rw [enumFrom_map_range k h 0]
  apply List.map_congr_left
  intro a _
  simp

end Lithe

namespace Lithe

/-- A dependency chain of relative modifications over names `f 0 .. f k`:
the j-th modification positions a middleware named `f (j+1)` relative
(before/after/replace) to the name `f j`, exactly the
`f before e before d before c before b before a` pattern. -/
def chainMods (es : Nat → Entry V E) (f : Nat → String) (act : RelAction)
    (k : Nat) : List (Modification V E) :=
  (List.range k).map (fun j => .rel (es (j + 1)) act (f j))

/-- Consecutive names `f a, f (a+1), ..` of length `len`. -/
def nameSeg (f : Nat → String) (a len : Nat) : List String :=
  (List.range len).map (fun u => f (a + u))

theorem nameSeg_succ (f : Nat → String) (a len : Nat) :
    nameSeg f a (len + 1) = f a :: nameSeg f (a + 1) len := by
  unfold nameSeg
  rw [List.range_succ_eq_map, List.map_cons, List.map_map]
  congr 1
  apply List.map_congr_left
  intro u _
  exact congrArg f (by omega)

theorem nameSeg_length (f : Nat → String) (a len : Nat) :
    (nameSeg f a len).length = len := by
  unfold nameSeg
  rw [List.length_map, List.length_range]

/-- The resolver's graph on an ascending-declared chain: each referenced name
`f j` ends up with the single dependent `f (j+1)`. -/
def gAsc (f : Nat → String) (k : Nat) : Graph :=
  (List.range k).map (fun j => (f j, [f (j + 1)]))

/-- The resolver's graph after processing the first `t` modifications of a
descending-declared chain: the `u`-th processed modification targets
`f (k-1-u)` and accumulates every name above it. -/
def gDescT (f : Nat → String) (k t : Nat) : Graph :=
  (List.range t).map (fun u => (f (k - 1 - u), nameSeg f (k - u) (u + 1)))

theorem buildGraph_chain_asc (st : Store V E) (es : Nat → Entry V E)
    (f : Nat → String) (act : RelAction) :
    ∀ (k : Nat),
    (∀ i, i ≤ k → ∀ j, j ≤ k → f i = f j → i = j) →
    (∀ i, 1 ≤ i → i ≤ k → nameOfEntry st (es i) = some (f i)) →
    buildGraph st (chainMods es f act k) = gAsc f k := by
  intro k
  induction k with
  | zero => intro _ _; rfl
  | succ k ih =>
    intro hinj hnames
    unfold buildGraph chainMods
    rw [List.range_succ, List.map_append, List.foldl_append]
    have hprev : List.foldl (buildGraphStep st) []
        ((List.range k).map (fun j => Modification.rel (es (j + 1)) act (f j)))
        = gAsc f k := by
      have := ih (fun i hi j hj => hinj i (by omega) j (by omega))
        (fun i h1 h2 => hnames i h1 (by omega))
      unfold buildGraph chainMods at this
      exact this
    rw [hprev]
    show buildGraphStep st (gAsc f k) (.rel (es (k + 1)) act (f k)) = gAsc f (k + 1)
    unfold buildGraphStep
    dsimp only [slotOneMatches]
    rw [if_pos rfl]
    dsimp only [refOf, nameOfMod, keyOf]
    rw [hnames (k + 1) (by omega) (by omega)]
    dsimp only [keyOf]
    have hfindnone : (gAsc f k).find? (fun p => p.1 == f k) = none :=
      find_map_range_none f (fun j => [f (j + 1)]) k (f k)
        (fun j hj heq => by have := hinj k (by omega) j (by omega) heq; omega)
    have hget0 : Graph.get (gAsc f k) (f k) = none := by
      unfold Graph.get
      rw [hfindnone]
      rfl
    rw [hget0]
    dsimp only [Option.getD, List.nil_append]
    rw [set_absent _ _ _ hfindnone]
    have hget1 : Graph.get (gAsc f k ++ [(f k, [f (k + 1)])]) (f k)
        = some [f (k + 1)] := by
      unfold Graph.get
      rw [List.find?_append, hfindnone]
      simp
    rw [hget1]
    have hfind2 : (gAsc f k).find? (fun p => p.1 == f (k + 1)) = none :=
      find_map_range_none f (fun j => [f (j + 1)]) k (f (k + 1))
        (fun j hj heq => by have := hinj (k + 1) (by omega) j (by omega) heq; omega)
    have hget2 : Graph.get (gAsc f k ++ [(f k, [f (k + 1)])]) (f (k + 1))
        = none := by
      unfold Graph.get
      rw [List.find?_append, hfind2]
      have hne : (f k == f (k + 1)) = false := by
        simp only [beq_eq_false_iff_ne, ne_eq]
        intro heq
        have := hinj k (by omega) (k + 1) (by omega) heq
        omega
      simp [List.find?, hne]
    rw [hget2]
    dsimp only [Option.getD]
    rw [List.append_nil]
    rw [set_append_self _ _ _ _ hfindnone]
    unfold gAsc
    rw [List.range_succ, List.map_append]
    rfl

end Lithe

namespace Lithe

theorem chainMods_reverse (es : Nat → Entry V E) (f : Nat → String)
    (act : RelAction) (k : Nat) :
    (chainMods es f act k).reverse
      = (List.range k).map
          (fun t => Modification.rel (es (k - 1 - t + 1)) act (f (k - 1 - t))) := by
  unfold chainMods
  rw [← List.map_reverse, reverse_range, List.map_map]
  rfl

theorem buildGraph_chain_desc_take (st : Store V E) (es : Nat → Entry V E)
    (f : Nat → String) (act : RelAction) (k : Nat)
    (hinj : ∀ i, i ≤ k → ∀ j, j ≤ k → f i = f j → i = j)
    (hnames : ∀ i, 1 ≤ i → i ≤ k → nameOfEntry st (es i) = some (f i)) :
    ∀ t, t ≤ k →
    List.foldl (buildGraphStep st) []
      (((chainMods es f act k).reverse).take t) = gDescT f k t := by
  intro t
  induction t with
  | zero => intro _; rfl
  | succ t ih =>
    intro ht
    have hel : ((chainMods es f act k).reverse)[t]?
        = some (.rel (es (k - 1 - t + 1)) act (f (k - 1 - t))) := by
      rw [chainMods_reverse]
      rw [List.getElem?_map, List.getElem?_range (by omega)]
      rfl
    rw [List.take_succ, hel]
    dsimp only [Option.toList]
    rw [List.foldl_append, ih (by omega)]
    show buildGraphStep st (gDescT f k t)
        (.rel (es (k - 1 - t + 1)) act (f (k - 1 - t))) = gDescT f k (t + 1)
    unfold buildGraphStep
    dsimp only [slotOneMatches]
    rw [if_pos rfl]
    dsimp only [refOf, nameOfMod, keyOf]
    rw [hnames (k - 1 - t + 1) (by omega) (by omega)]
    dsimp only [keyOf]
    have hidx : k - 1 - t + 1 = k - t := by omega
    rw [hidx]
    have hfindref : (gDescT f k t).find? (fun p => p.1 == f (k - 1 - t))
        = none := by
      apply find_map_range_none
      intro u hu heq
      have := hinj (k - 1 - t) (by omega) (k - 1 - u) (by omega) heq
      omega
    have hget0 : Graph.get (gDescT f k t) (f (k - 1 - t)) = none := by
      unfold Graph.get
      rw [hfindref]
      rfl
    rw [hget0, Option.getD_none, List.nil_append]
    rw [set_absent _ _ _ hfindref]
    have hget1 : Graph.get (gDescT f k t ++ [(f (k - 1 - t), [f (k - t)])])
        (f (k - 1 - t)) = some [f (k - t)] := by
      unfold Graph.get
      rw [List.find?_append, hfindref]
      simp
    rw [hget1, Option.getD_some]
    have hgetname : (Graph.get (gDescT f k t ++ [(f (k - 1 - t), [f (k - t)])])
        (f (k - t))).getD [] = nameSeg f (k - t + 1) t := by
      by_cases ht0 : t = 0
      · subst ht0
        have hne2 : (f (k - 1) == f k) = false := by
          simp only [beq_eq_false_iff_ne, ne_eq]
          intro heq
          have := hinj (k - 1) (by omega) k (by omega) heq
          omega
        unfold Graph.get gDescT
        simp [List.find?, hne2, nameSeg]
      · have hfind : (gDescT f k t).find? (fun p => p.1 == f (k - t))
            = some (f (k - 1 - (t - 1)), nameSeg f (k - (t - 1)) ((t - 1) + 1)) := by
          have hkey : f (k - t) = f (k - 1 - (t - 1)) := congrArg f (by omega)
          rw [hkey]
          unfold gDescT
          exact find_map_range_of_inj (fun u => f (k - 1 - u))
            (fun u => nameSeg f (k - u) (u + 1)) t
            (fun u hu v hv heq => by
              have := hinj (k - 1 - u) (by omega) (k - 1 - v) (by omega) heq
              omega)
            (t - 1) (by omega)
        unfold Graph.get
        rw [List.find?_append, hfind]
        rw [Option.or_some]
        have h1 : k - 1 - (t - 1) = k - t := by omega
        have h2 : k - (t - 1) = k - t + 1 := by omega
        have h3 : t - 1 + 1 = t := by omega
        rw [h1, h2, h3]
        rfl
    rw [hgetname]
    rw [set_append_self _ _ _ _ hfindref]
    have hseg : f (k - t) :: nameSeg f (k - t + 1) t = nameSeg f (k - t) (t + 1) := by
      rw [nameSeg_succ]
    rw [show [f (k - t)] ++ nameSeg f (k - t + 1) t
      = f (k - t) :: nameSeg f (k - t + 1) t from rfl]
    rw [hseg]
    unfold gDescT
    rw [List.range_succ, List.map_append]
    rfl

theorem buildGraph_chain_desc (st : Store V E) (es : Nat → Entry V E)
    (f : Nat → String) (act : RelAction) (k : Nat)
    (hinj : ∀ i, i ≤ k → ∀ j, j ≤ k → f i = f j → i = j)
    (hnames : ∀ i, 1 ≤ i → i ≤ k → nameOfEntry st (es i) = some (f i)) :
    buildGraph st ((chainMods es f act k).reverse) = gDescT f k k := by
  have hlen : ((chainMods es f act k).reverse).length = k := by
    simp [chainMods]
  have := buildGraph_chain_desc_take st es f act k hinj hnames k (le_refl k)
  rw [List.take_of_length_le (le_of_eq hlen)] at this
  exact this

end Lithe

namespace Lithe

theorem foldl_add_map_sum (w : String → Nat) :
    ∀ (l : List String) (init : Nat),
    l.foldl (fun sum ref => sum + w ref) init = init + (l.map w).sum := by
  intro l
  induction l with
  | nil => intro init; simp
  | cons a l ih =>
    intro init
    rw [List.foldl_cons, ih, List.map_cons, List.sum_cons]
    omega

theorem weight_asc (f : Nat → String) (k : Nat)
    (hinj : ∀ i, i ≤ k → ∀ j, j ≤ k → f i = f j → i = j) :
    ∀ (fuel : Nat) (i : Nat), i ≤ k → k - i < fuel →
    weightOf (gAsc f k) fuel (f i) = k - i := by
  intro fuel
  induction fuel with
  | zero => intro i _ h; omega
  | succ fuel ih =>
    intro i hi h
    unfold weightOf
    by_cases hik : i < k
    · have hget : Graph.get (gAsc f k) (f i) = some [f (i + 1)] := by
        unfold Graph.get gAsc
        rw [find_map_range_of_inj f (fun j => [f (j + 1)]) k
          (fun a ha b hb heq => hinj a (by omega) b (by omega) heq) i hik]
        rfl
      rw [hget]
      show List.foldl _ ([f (i + 1)]).length [f (i + 1)] = k - i
      rw [foldl_add_map_sum]
      simp only [List.length_singleton, List.map_cons, List.map_nil,
        List.sum_cons, List.sum_nil]
      rw [ih (i + 1) (by omega) (by omega)]
      omega
    · have hik' : i = k := by omega
      have hget : Graph.get (gAsc f k) (f i) = none := by
        unfold Graph.get gAsc
        rw [find_map_range_none f (fun j => [f (j + 1)]) k (f i)
          (fun j hj heq => by
            have := hinj i (by omega) j (by omega) heq
            omega)]
        rfl
      rw [hget]
      show (0 : Nat) = k - i
      omega

theorem sum_weights_nameSeg (w : String → Nat) (f : Nat → String) :
    ∀ (d a : Nat), (∀ u, u < d → w (f (a + u)) + 1 = 2 ^ (d - 1 - u)) →
    ((nameSeg f a d).map w).sum + d + 1 = 2 ^ d := by
  intro d
  induction d with
  | zero => intro a _; rfl
  | succ d ih =>
    intro a hw
    rw [nameSeg_succ, List.map_cons, List.sum_cons]
    have h0 : w (f a) + 1 = 2 ^ d := by
      have := hw 0 (by omega)
      simpa using this
    have hrest : ((nameSeg f (a + 1) d).map w).sum + d + 1 = 2 ^ d := by
      apply ih
      intro u hu
      have := hw (u + 1) (by omega)
      have harg : a + (u + 1) = a + 1 + u := by omega
      have hexp : d + 1 - 1 - (u + 1) = d - 1 - u := by omega
      rw [harg, hexp] at this
      exact this
    have hpow : 2 ^ (d + 1) = 2 ^ d + 2 ^ d := by
      rw [pow_succ]
      omega
    omega

theorem weight_desc (f : Nat → String) (k : Nat)
    (hinj : ∀ i, i ≤ k → ∀ j, j ≤ k → f i = f j → i = j) :
    ∀ (fuel : Nat) (i : Nat), i ≤ k → k - i < fuel →
    weightOf (gDescT f k k) fuel (f i) + 1 = 2 ^ (k - i) := by
  intro fuel
  induction fuel with
  | zero => intro i _ h; omega
  | succ fuel ih =>
    intro i hi h
    unfold weightOf
    by_cases hik : i < k
    · have hget : Graph.get (gDescT f k k) (f i)
          = some (nameSeg f (i + 1) (k - i)) := by
        unfold Graph.get gDescT
        have hkey : f i = f (k - 1 - (k - 1 - i)) := congrArg f (by omega)
        rw [hkey]
        rw [find_map_range_of_inj (fun u => f (k - 1 - u))
          (fun u => nameSeg f (k - u) (u + 1)) k
          (fun u hu v hv heq => by
            have := hinj (k - 1 - u) (by omega) (k - 1 - v) (by omega) heq
            omega)
          (k - 1 - i) (by omega)]
        have h1 : k - (k - 1 - i) = i + 1 := by omega
        have h2 : k - 1 - i + 1 = k - i := by omega
        rw [h1, h2]
        rfl
      rw [hget]
      show List.foldl _ (nameSeg f (i + 1) (k - i)).length
          (nameSeg f (i + 1) (k - i)) + 1 = 2 ^ (k - i)
      rw [foldl_add_map_sum, nameSeg_length]
      have hsum : ((nameSeg f (i + 1) (k - i)).map
          (weightOf (gDescT f k k) fuel)).sum + (k - i) + 1 = 2 ^ (k - i) := by
        apply sum_weights_nameSeg
        intro u hu
        have harg : k - (i + 1 + u) = k - i - 1 - u := by omega
        have := ih (i + 1 + u) (by omega) (by omega)
        rw [harg] at this
        exact this
      omega
    · have hik' : i = k := by omega
      have hget : Graph.get (gDescT f k k) (f i) = none := by
        unfold Graph.get gDescT
        rw [find_map_range_none (fun u => f (k - 1 - u))
          (fun u => nameSeg f (k - u) (u + 1)) k (f i)
          (fun u hu heq => by
            have := hinj i (by omega) (k - 1 - u) (by omega) heq
            omega)]
        rfl
      rw [hget]
      have : k - i = 0 := by omega
      rw [this]
      rfl

end Lithe

namespace Lithe

theorem modLe_total (st : Store V E) (g : Graph) (fuel : Nat)
    (a b : Nat × Modification V E) :
    modLe st g fuel a b = true ∨ modLe st g fuel b a = true := by
  simp only [modLe, Bool.or_eq_true, Bool.and_eq_true, decide_eq_true_eq,
    beq_iff_eq]
  omega

theorem modLe_trans (st : Store V E) (g : Graph) (fuel : Nat)
    (a b c : Nat × Modification V E) :
    modLe st g fuel a b = true → modLe st g fuel b c = true →
    modLe st g fuel a c = true := by
  simp only [modLe, Bool.or_eq_true, Bool.and_eq_true, decide_eq_true_eq,
    beq_iff_eq]
  omega

/-- An ascending-declared before/after chain is already in sorted order: the
resolver's sort leaves it unchanged. -/
theorem sortMods_chain_asc (st : Store V E) (es : Nat → Entry V E)
    (f : Nat → String) (act : RelAction) (k : Nat)
    (hinj : ∀ i, i ≤ k → ∀ j, j ≤ k → f i = f j → i = j)
    (hnames : ∀ i, 1 ≤ i → i ≤ k → nameOfEntry st (es i) = some (f i)) :
    sortMods st (chainMods es f act k) = chainMods es f act k := by
  simp only [sortMods]
  rw [buildGraph_chain_asc st es f act k hinj hnames]
  have hglen : (gAsc f k).length = k := by simp [gAsc]
  rw [hglen]
  have henum : (chainMods es f act k).enum
      = (List.range k).map
          (fun j => (j, Modification.rel (es (j + 1)) act (f j))) := by
    unfold chainMods
    exact enum_map_range _ k
  rw [henum]
  have hw : ∀ j, j < k →
      modWeight st (gAsc f k) (k + 1)
        (Modification.rel (es (j + 1)) act (f j)) = k - 1 - j := by
    intro j hj
    simp only [modWeight, nameOfMod]
    rw [hnames (j + 1) (by omega) (by omega)]
    show weightOf (gAsc f k) (k + 1) (f (j + 1)) = k - 1 - j
    rw [weight_asc f k hinj (k + 1) (j + 1) (by omega) (by omega)]
    omega
  have hpair : ((List.range k).map
      (fun j => (j, Modification.rel (es (j + 1)) act (f j)))).Pairwise
        (fun a b => modLe st (gAsc f k) (k + 1) a b = true) := by
    rw [List.pairwise_map]
    apply List.Pairwise.imp_of_mem ?_ (List.pairwise_lt_range k)
    intro a b ha hb hab
    rw [List.mem_range] at ha hb
    simp only [modLe, Bool.or_eq_true, Bool.and_eq_true, decide_eq_true_eq,
      beq_iff_eq]
    rw [hw a ha, hw b hb]
    omega
  rw [insortBy_of_pairwise _ _ hpair, List.map_map]
  rfl

/-- A descending-declared before/after chain sorts into the ascending order:
the resolver's sort reverses it, because the chain's weights grow geometrically
down the chain. -/
theorem sortMods_chain_desc (st : Store V E) (es : Nat → Entry V E)
    (f : Nat → String) (act : RelAction) (k : Nat)
    (hinj : ∀ i, i ≤ k → ∀ j, j ≤ k → f i = f j → i = j)
    (hnames : ∀ i, 1 ≤ i → i ≤ k → nameOfEntry st (es i) = some (f i)) :
    sortMods st ((chainMods es f act k).reverse) = chainMods es f act k := by
  simp only [sortMods]
  rw [buildGraph_chain_desc st es f act k hinj hnames]
  have hglen : (gDescT f k k).length = k := by simp [gDescT]
  rw [hglen]
  rw [chainMods_reverse, enum_map_range]
  have hw : ∀ t, t < k →
      modWeight st (gDescT f k k) (k + 1)
        (Modification.rel (es (k - 1 - t + 1)) act (f (k - 1 - t))) + 1
        = 2 ^ t := by
    intro t ht
    simp only [modWeight, nameOfMod]
    have harg : k - 1 - t + 1 = k - t := by omega
    rw [harg, hnames (k - t) (by omega) (by omega)]
    show weightOf (gDescT f k k) (k + 1) (f (k - t)) + 1 = 2 ^ t
    have h2 : k - (k - t) = t := by omega
    have := weight_desc f k hinj (k + 1) (k - t) (by omega) (by omega)
    rw [h2] at this
    exact this
  have hsorted :
      insortBy (modLe st (gDescT f k k) (k + 1))
        ((List.range k).map
          (fun t => (t, Modification.rel (es (k - 1 - t + 1)) act (f (k - 1 - t)))))
      = (List.range k).map
          (fun u => (k - 1 - u,
            Modification.rel (es (k - 1 - (k - 1 - u) + 1)) act
              (f (k - 1 - (k - 1 - u))))) := by
    apply sorted_perm_unique
    · refine (insortBy_perm _ _).trans ?_
      have hTrev : ((List.range k).map
          (fun t => (t, Modification.rel (es (k - 1 - t + 1)) act
            (f (k - 1 - t))))).reverse
          = (List.range k).map
              (fun u => (k - 1 - u,
                Modification.rel (es (k - 1 - (k - 1 - u) + 1)) act
                  (f (k - 1 - (k - 1 - u))))) := by
        rw [← List.map_reverse, reverse_range, List.map_map]
        rfl
      rw [← hTrev]
      exact (List.reverse_perm _).symm
    · exact insortBy_pairwise _ (modLe_total st _ _) (modLe_trans st _ _) _
    · rw [List.pairwise_map]
      apply List.Pairwise.imp_of_mem ?_ (List.pairwise_lt_range k)
      intro a b ha hb hab
      rw [List.mem_range] at ha hb
      simp only [modLe, Bool.or_eq_true, Bool.and_eq_true, decide_eq_true_eq,
        beq_iff_eq]
      have ha' := hw (k - 1 - a) (by omega)
      have hb' := hw (k - 1 - b) (by omega)
      have hpow : (2 : Nat) ^ (k - 1 - b) < 2 ^ (k - 1 - a) :=
        Nat.pow_lt_pow_right (by norm_num) (by omega)
      omega
    · intro a ha b hb hab hba
      rw [(insortBy_perm _ _).mem_iff, List.mem_map] at ha hb
      obtain ⟨t, ht, rfl⟩ := ha
      obtain ⟨s, hs, rfl⟩ := hb
      simp only [modLe, Bool.or_eq_true, Bool.and_eq_true, decide_eq_true_eq,
        beq_iff_eq] at hab hba
      have : t = s := by omega
      rw [this]
  rw [hsorted, List.map_map]
  unfold chainMods
  apply List.map_congr_left
  intro u hu
  rw [List.mem_range] at hu
  show Modification.rel (es (k - 1 - (k - 1 - u) + 1)) act
    (f (k - 1 - (k - 1 - u))) = Modification.rel (es (u + 1)) act (f u)
  have h1 : k - 1 - (k - 1 - u) = u := by omega
  rw [h1]

end Lithe

namespace Lithe

/-- The three named pair cells `a`, `b`, `c` of the concrete chain example. -/
def c3store : Store Nat Unit :=
  [(0, PairCell.mk "a" (.anon (.thenNext (fun n => n + 1)))),
   (1, PairCell.mk "b" (.anon (.thenNext (fun n => n + 10)))),
   (2, PairCell.mk "c" (.anon (.thenNext (fun n => n * 2))))]

/-- Names of the concrete chain: `a`, `b`, `c`. -/
def c3f : Nat → String
  | 0 => "a"
  | 1 => "b"
  | _ => "c"

/-- The chain's inserted middlewares: pair references to `b` and `c`. -/
def c3es : Nat → Entry Nat Unit
  | 1 => .named 1
  | _ => .named 2

/-- A pipeline whose base list is the single pair `a`. -/
def c3cfg : Config Nat Unit :=
  Config.mk "p" [] none [.named 0] c3store

end Lithe

namespace Lithe

/-- C3: for every base list and every chain of relative modifications
(`f (j+1)` before/after `f j` for `j = 0..k-1`, with pairwise-distinct names
and each inserted middleware named `f (j+1)`), resolving the chain declared in
ascending order and in descending (reversed) order produces the identical
resolved middleware list — `modify` returns equal results — and running the
pipeline produces the identical outcome: `handleRequest` returns equal results
for every request counter and every input (main.js lines 176-225: the
weight-based sort linearizes the chain before any splicing). -/
theorem relative_chain_declaration_order_irrelevant (cfg : Config V E)
    (es : Nat → Entry V E) (f : Nat → String) (act : RelAction) (k : Nat)
    (hinj : ∀ i, i ≤ k → ∀ j, j ≤ k → f i = f j → i = j)
    (hnames : ∀ i, 1 ≤ i → i ≤ k → nameOfEntry cfg.store (es i) = some (f i)) :
    modify cfg.store cfg.middlewares ((chainMods es f act k).reverse)
      = modify cfg.store cfg.middlewares (chainMods es f act k)
    ∧ ∀ (c : Nat) (x : V),
      handleRequest cfg ((chainMods es f act k).reverse) c x
        = handleRequest cfg (chainMods es f act k) c x := by
  have hs : sortMods cfg.store ((chainMods es f act k).reverse)
      = sortMods cfg.store (chainMods es f act k) := by
    rw [sortMods_chain_asc cfg.store es f act k hinj hnames,
        sortMods_chain_desc cfg.store es f act k hinj hnames]
  have hm : modify cfg.store cfg.middlewares ((chainMods es f act k).reverse)
      = modify cfg.store cfg.middlewares (chainMods es f act k) := by
    unfold modify
    rw [hs]
  refine ⟨hm, ?_⟩
  intro c x
  simp only [handleRequest]
  rw [hm]

/-- Concrete instance of C3: the chain `b before a`, `c before b` over the
base list `[a]`, declared ascending and descending, resolves and runs
identically. -/
theorem relative_chain_declaration_order_irrelevant_witness :
    (∀ i, i ≤ 2 → ∀ j, j ≤ 2 → c3f i = c3f j → i = j)
    ∧ (modify c3cfg.store c3cfg.middlewares
          ((chainMods c3es c3f RelAction.before 2).reverse)
        = modify c3cfg.store c3cfg.middlewares
            (chainMods c3es c3f RelAction.before 2)
      ∧ ∀ (c : Nat) (x : Nat),
        handleRequest c3cfg ((chainMods c3es c3f RelAction.before 2).reverse) c x
          = handleRequest c3cfg (chainMods c3es c3f RelAction.before 2) c x) :=
  ⟨by decide,
   relative_chain_declaration_order_irrelevant c3cfg c3es c3f RelAction.before 2
     (by decide)
     (by
       intro i h1 h2
       interval_cases i
       · rfl
       · rfl)⟩

end Lithe
